import Mathlib

/-!
Verification of the docworkspace provenance-graph engine (`docworkspace/workspace.py`,
`docworkspace/node.py`) together with the docframe wrappers it builds on
(`docframe/core/docframe.py`).

The embedding models the Python object graph as an explicit state:

* every live `Node` object lives in a heap keyed by its unique id
  (`uuid.uuid4()` is modelled by caller-supplied fresh `Nat` ids);
* every live `Workspace` object lives in a registry keyed by its id,
  and its `nodes` dict is modelled as the insertion-ordered list of node ids;
* the four supported data wrappers (`pl.DataFrame`, `pl.LazyFrame`,
  `DocDataFrame`, `DocLazyFrame`) are the four constructors of `PlData`.
  A wrapper stores the tabular content it denotes; for a lazy wrapper this is
  the content a successful engine `collect()` yields.  Engine-side failure of
  `collect()` is modelled by an explicit error-injecting parameter `ec` where a
  claim depends on it.
* The external polars engine's computational behaviour (what `join` does to
  rows) is out of scope of this repository; it is modelled by an arbitrary
  function parameter `ej` so that theorems hold for every engine behaviour.

Python exceptions are modelled with `Except PyErr`; `AttributeError` and
`TypeError` are distinguished because `Node.collect`/`Node.materialize`
catch exactly those.
-/

abbrev NodeId := Nat
abbrev WsId := Nat

/-- Tabular content: a list of rows of integer cells.  The engine's row
semantics are irrelevant to every claim; only identity of contents matters. -/
abbrev Content := List (List Int)

inductive PyErr where
  | attrError
  | typeError
  | runtimeError (msg : String)
deriving DecidableEq

instance {ε α : Type} [DecidableEq ε] [DecidableEq α] : DecidableEq (Except ε α) :=
  fun x y =>
    match x, y with
    | .ok a, .ok b =>
      if h : a = b then isTrue (by rw [h]) else isFalse (by intro hh; cases hh; exact h rfl)
    | .error e, .error f =>
      if h : e = f then isTrue (by rw [h]) else isFalse (by intro hh; cases hh; exact h rfl)
    | .ok _, .error _ => isFalse (by intro hh; cases hh)
    | .error _, .ok _ => isFalse (by intro hh; cases hh)

/-- The four supported data wrappers (`SupportedDataTypes` in `node.py`).
A lazy wrapper stores the content that its (successful) `collect()` denotes. -/
inductive PlData where
  | dataFrame (rows : Content)
  | lazyFrame (rows : Content)
  | docDataFrame (rows : Content) (docCol : String)
  | docLazyFrame (rows : Content) (docCol : String)
deriving DecidableEq

/-- `Node.is_lazy` (node.py:148-157): dispatch on the wrapper type. -/
def PlData.is_lazy : PlData → Bool
  | .lazyFrame _ => true
  | .docLazyFrame _ _ => true
  | .dataFrame _ => false
  | .docDataFrame _ _ => false

/-- `Node.document_column` (node.py:159-169): the document column for the two
document-designated wrappers, `None` otherwise. -/
def PlData.document_column : PlData → Option String
  | .docDataFrame _ c => some c
  | .docLazyFrame _ c => some c
  | .dataFrame _ => none
  | .lazyFrame _ => none

/-- `type(data).__name__` for the four wrappers. -/
def PlData.typeName : PlData → String
  | .dataFrame _ => "DataFrame"
  | .lazyFrame _ => "LazyFrame"
  | .docDataFrame _ _ => "DocDataFrame"
  | .docLazyFrame _ _ => "DocLazyFrame"

/-- The stored tabular content of a wrapper. -/
def PlData.rows : PlData → Content
  | .dataFrame c => c
  | .lazyFrame c => c
  | .docDataFrame c _ => c
  | .docLazyFrame c _ => c

/-- A `Node` object (node.py:78-146).  `parents`/`children` hold ids of the
referenced `Node` objects (Python holds references; ids are unique), and
`workspace` is the id of the owning `Workspace` object (never absent). -/
structure Node where
  id : NodeId
  name : String
  data : PlData
  parents : List NodeId
  children : List NodeId
  workspace : WsId
  operation : Option String
deriving DecidableEq

/-- `Node.is_lazy`. -/
def Node.is_lazy (n : Node) : Bool := n.data.is_lazy

/-- A `Workspace` object (workspace.py:15-62).  `nodeIds` is the
insertion-ordered key list of the `self.nodes` dict. -/
structure Workspace where
  id : WsId
  name : String
  nodeIds : List NodeId
deriving DecidableEq

/-- Association-list lookup by key (first matching entry, like a dict with
unique keys). -/
def lookupA {α : Type} (k : Nat) : List (Nat × α) → Option α
  | [] => none
  | kv :: rest => if kv.1 = k then some kv.2 else lookupA k rest

/-- Association-list pointwise update at a key. -/
def updA {α : Type} (k : Nat) (f : α → α) (l : List (Nat × α)) : List (Nat × α) :=
  l.map fun kv => if kv.1 = k then (kv.1, f kv.2) else kv

/-- Keys of an association list. -/
def keysA {α : Type} (l : List (Nat × α)) : List Nat := l.map Prod.fst

/-- The whole Python object graph: all live `Node` and `Workspace` objects. -/
structure State where
  heap : List (NodeId × Node)
  wss : List (WsId × Workspace)
deriving DecidableEq

def State.getNode (s : State) (i : NodeId) : Option Node := lookupA i s.heap

def State.getWs (s : State) (k : WsId) : Option Workspace := lookupA k s.wss

def State.updNode (i : NodeId) (f : Node → Node) (s : State) : State :=
  { s with heap := updA i f s.heap }

def State.updWs (k : WsId) (f : Workspace → Workspace) (s : State) : State :=
  { s with wss := updA k f s.wss }

/-- The key set of workspace `k`'s `nodes` dict (empty for an absent object). -/
def State.wsMembers (s : State) (k : WsId) : List NodeId :=
  match s.getWs k with
  | some w => w.nodeIds
  | none => []

/-- The `workspace` field of node `i`. -/
def State.nodeWorkspace (s : State) (i : NodeId) : Option WsId :=
  (s.getNode i).map Node.workspace

/-- The `children` list of node `i` (empty for an absent object). -/
def State.childrenOf (s : State) (i : NodeId) : List NodeId :=
  match s.getNode i with
  | some n => n.children
  | none => []

/-! ## Workspace.add_node (workspace.py:103-146) -/

/-- The "remove from previous workspace" step of `add_node`
(workspace.py:117-124 and 134-137): if the node's workspace is a different
object than the target, delete its id from that workspace's dict (if present).
`node.workspace` is never `None` (node.py:132-137). -/
def detachPrev (s : State) (target : WsId) (i : NodeId) : State :=
  match s.getNode i with
  | none => s
  | some n =>
    if n.workspace ≠ target then
      s.updWs n.workspace fun w => { w with nodeIds := w.nodeIds.erase i }
    else s

/-- `self.nodes[node.id] = node; node.workspace = self`
(workspace.py:126-128 and 138-140). -/
def registerNode (s : State) (target : WsId) (i : NodeId) : State :=
  (s.updWs target fun w => { w with nodeIds := w.nodeIds ++ [i] }).updNode i
    fun n => { n with workspace := target }

/-- `move_children_recursive` (workspace.py:131-144).  The Python recursion
terminates because each recursive call is preceded by registering a fresh id
into the target workspace; the fuel bound used at the call site
(`heap.length + 1`) therefore never runs out on states whose edges stay inside
the heap. -/
def moveChildren (target : WsId) : Nat → State → NodeId → State
  | 0, s, _ => s
  | fuel + 1, s, cur =>
    match s.getNode cur with
    | none => s
    | some n =>
      n.children.foldl
        (fun acc childId =>
          if childId ∈ acc.wsMembers target then acc
          else
            moveChildren target fuel
              (registerNode (detachPrev acc target childId) target childId) childId)
        s

/-- `Workspace.add_node` (workspace.py:103-146).  The two `none` branches are
unreachable in Python: the method receiver and the node argument are live
objects. -/
def Workspace.add_node (s : State) (target : WsId) (i : NodeId) : State :=
  match s.getWs target with
  | none => s
  | some w =>
    if i ∈ w.nodeIds then s
    else
      match s.getNode i with
      | none => s
      | some _ =>
        let s1 := registerNode (detachPrev s target i) target i
        moveChildren target (s1.heap.length + 1) s1 i

/-! ## Node construction (node.py:98-146) -/

/-- `Node.__init__` with an explicitly supplied workspace and a fresh id.
The data-type validation (node.py:119-126) cannot fail: `PlData` is exactly
the supported set.  Order as in the source: build the object, register it via
`workspace.add_node` (the new node has no children yet, so the recursive child
move is vacuous), then append the new node to every parent's `children`. -/
def Node.new (s : State) (newId : NodeId) (nm : String) (d : PlData)
    (target : WsId) (ps : List NodeId) (op : Option String) : State :=
  let node : Node :=
    { id := newId, name := nm, data := d, parents := ps, children := [],
      workspace := target, operation := op }
  let s1 : State := { s with heap := s.heap ++ [(newId, node)] }
  let s2 :=
    match s1.getWs target with
    | some w => if newId ∈ w.nodeIds then s1 else Workspace.add_node s1 target newId
    | none => s1
  ps.foldl (fun acc p => acc.updNode p fun n => { n with children := n.children ++ [newId] }) s2

/-! ## collect / materialize (node.py:171-198, 217-233) -/

/-- `self.data.collect()` for a lazy wrapper.  For `pl.LazyFrame` this is the
engine call, modelled by `ec` applied to the stored content; for
`DocLazyFrame` it is docframe.py:703-713: collect the underlying frame, then
rewrap as a `DocDataFrame` with the same document column.  Eager wrappers are
returned unchanged (their branch is never taken by the callers below). -/
def dataCollect (ec : Content → Except PyErr Content) : PlData → Except PyErr PlData
  | .lazyFrame c => (ec c).map PlData.dataFrame
  | .docLazyFrame c col => (ec c).map fun c2 => PlData.docDataFrame c2 col
  | d => .ok d

/-- `Node.collect` (node.py:171-198): on a lazy node, collect and wrap the
result in a NEW child node; `AttributeError`/`TypeError` are swallowed and
`self` is returned; other engine errors propagate.  On an eager node, return
`self` unchanged.  `newId` is the fresh uuid of the would-be child. -/
def Node.collect (s : State) (i : NodeId) (newId : NodeId)
    (ec : Content → Except PyErr Content) : Except PyErr NodeId × State :=
  match s.getNode i with
  | none => (.ok i, s)
  | some n =>
    if n.data.is_lazy then
      match dataCollect ec n.data with
      | .ok d =>
        let s1 := Node.new s newId ("collect_" ++ n.name) d n.workspace [i]
          (some ("collect(" ++ n.name ++ ")"))
        (.ok newId, Workspace.add_node s1 n.workspace newId)
      | .error .attrError => (.ok i, s)
      | .error .typeError => (.ok i, s)
      | .error e => (.error e, s)
    else (.ok i, s)

/-- `Node.materialize` (node.py:217-233): replace `self.data` by the collected
data in place; `AttributeError`/`TypeError` are swallowed; other engine errors
propagate; eager nodes are untouched.  Always returns `self`. -/
def Node.materialize (s : State) (i : NodeId)
    (ec : Content → Except PyErr Content) : Except PyErr NodeId × State :=
  match s.getNode i with
  | none => (.ok i, s)
  | some n =>
    if n.data.is_lazy then
      match dataCollect ec n.data with
      | .ok d => (.ok i, s.updNode i fun m => { m with data := d })
      | .error .attrError => (.ok i, s)
      | .error .typeError => (.ok i, s)
      | .error e => (.error e, s)
    else (.ok i, s)

/-! ## Workspace.remove_node (workspace.py:148-176) -/

/-- The `for child in node.children.copy(): child.materialize()` loop
(workspace.py:164-167); an engine error raised by a `materialize` call
propagates out of `remove_node`. -/
def materializeList (ec : Content → Except PyErr Content) :
    List NodeId → State → Option PyErr × State
  | [], s => (none, s)
  | c :: rest, s =>
    match Node.materialize s c ec with
    | (.ok _, s1) => materializeList ec rest s1
    | (.error e, s1) => (some e, s1)

/-- `Workspace.remove_node` (workspace.py:148-176).  Removes the node's id
from each parent's `children` list (`list.remove` deletes the first
occurrence, once per occurrence of the parent in `node.parents`), then deletes
the id from the registry.  The removed node is NOT deleted from its children's
`parents` lists.  The inner `none` branch is unreachable: a registered id
always resolves to a live object. -/
def Workspace.remove_node (s : State) (target : WsId) (i : NodeId)
    (ec : Content → Except PyErr Content) (materialize_children : Bool) :
    Except PyErr Bool × State :=
  match s.getWs target with
  | none => (.ok false, s)
  | some w =>
    if i ∉ w.nodeIds then (.ok false, s)
    else
      match s.getNode i with
      | none => (.ok false, s)
      | some node =>
        match (if materialize_children then materializeList ec node.children s
               else (none, s)) with
        | (some e, s1) => (.error e, s1)
        | (none, s1) =>
          let s2 := node.parents.foldl
            (fun acc p => acc.updNode p fun n => { n with children := n.children.erase i }) s1
          (.ok true, s2.updWs target fun w2 => { w2 with nodeIds := w2.nodeIds.erase i })

/-! ## Node.join (node.py:235-329) and DocDataFrame.join (docframe.py:405-429) -/

/-- Convert a lazy wrapper to its eager counterpart for a mixed-laziness join
(node.py:254-271): `DocLazyFrame.collect()` gives a `DocDataFrame` with the
same document column; `pl.LazyFrame.collect()` gives a `pl.DataFrame` (the
engine collect is assumed successful here; a raising collect creates no node
at all, exactly as in `Node.__getattr__`'s generic scheme). -/
def collectForJoin : PlData → PlData
  | .docLazyFrame c col => .docDataFrame c col
  | .lazyFrame c => .dataFrame c
  | d => d

/-- The operand preparation of `Node.join` (node.py:249-308): mixed laziness
forces the lazy side eager; equal laziness strips document wrappers down to
their underlying frames for every mixed-wrapper (and doc/doc) pairing. -/
def prepareJoin (a b : PlData) : PlData × PlData :=
  if a.is_lazy && !b.is_lazy then (collectForJoin a, b)
  else if !a.is_lazy && b.is_lazy then (a, collectForJoin b)
  else
    match a, b with
    | .lazyFrame x, .docLazyFrame y _ => (.lazyFrame x, .lazyFrame y)
    | .docLazyFrame x _, .lazyFrame y => (.lazyFrame x, .lazyFrame y)
    | .docLazyFrame x _, .docLazyFrame y _ => (.lazyFrame x, .lazyFrame y)
    | .dataFrame x, .docDataFrame y _ => (.dataFrame x, .dataFrame y)
    | .docDataFrame x _, .dataFrame y => (.dataFrame x, .dataFrame y)
    | .docDataFrame x _, .docDataFrame y _ => (.dataFrame x, .dataFrame y)
    | x, y => (x, y)

/-- `self_data.join(other_data)` (node.py:310-316) after preparation, with the
engine's row behaviour abstracted as `ej`.  A plain polars frame joins only
with a frame of its own kind (the engine validates its operand; a document
wrapper passed to the raw engine raises, modelled as `none` = exception).
A `DocDataFrame` left operand uses docframe.py:405-429: unwrap a
`DocDataFrame` operand, join the underlying frames, rewrap with the LEFT
document column — an eager frame operand is accepted, so the designation
survives.  A `DocLazyFrame` left operand is never produced by `prepareJoin`. -/
def dataJoin (ej : Content → Content → Content) : PlData → PlData → Option PlData
  | .dataFrame a, .dataFrame b => some (.dataFrame (ej a b))
  | .dataFrame _, _ => none
  | .lazyFrame a, .lazyFrame b => some (.lazyFrame (ej a b))
  | .lazyFrame _, _ => none
  | .docDataFrame a col, .docDataFrame b _ => some (.docDataFrame (ej a b) col)
  | .docDataFrame a col, .dataFrame b => some (.docDataFrame (ej a b) col)
  | .docDataFrame _ _, _ => none
  | .docLazyFrame _ _, _ => none

/-- `Node.join` (node.py:235-329): prepare operands, delegate the join, wrap
the result in a new node with parents `[self, other]`, register it (the
trailing `add_node` call is idempotent: the constructor already registered the
node).  An engine exception creates no node (`none`). -/
def Node.join (s : State) (ej : Content → Content → Content)
    (i j : NodeId) (newId : NodeId) : Option NodeId × State :=
  match s.getNode i, s.getNode j with
  | some a, some b =>
    let p := prepareJoin a.data b.data
    match dataJoin ej p.1 p.2 with
    | none => (none, s)
    | some jd =>
      let s1 := Node.new s newId ("join_" ++ a.name ++ "_" ++ b.name) jd a.workspace [i, j]
        (some ("join(" ++ a.name ++ ", " ++ b.name ++ ")"))
      (some newId, Workspace.add_node s1 a.workspace newId)
  | _, _ => (none, s)

/-! ## Node.__getattr__ generic delegation (node.py:408-479) -/

/-- What the delegated engine invocation `attr(*args, **kwargs)` produced:
one of the four wrappers, a `pl.Series` (promoted via `.to_frame()`), an
intermediate polars object (GroupBy, ...), or any other value. -/
inductive DelegateResult where
  | frame (d : PlData)
  | series (c : Content)
  | intermediate
  | plain (v : String)
deriving DecidableEq

/-- What the wrapper returns to the caller. -/
inductive DelegateOutcome where
  | node (i : NodeId)
  | proxy
  | raw (v : String)
deriving DecidableEq

/-- The `wrapper` closure of `Node.__getattr__` (node.py:425-473): run the
engine invocation (its outcome, including a raised exception, is the
`engineResult` argument), then classify: wrapper-shaped results (and Series,
promoted to a one-column frame) become new child nodes; intermediate polars
objects become a transient proxy; anything else is returned raw.  There is no
try/except: an engine exception propagates before any node is created. -/
def Node.getattr (s : State) (i : NodeId) (opName : String) (newId : NodeId)
    (engineResult : Except PyErr DelegateResult) : Except PyErr DelegateOutcome × State :=
  match s.getNode i with
  | none => (.error (.runtimeError "absent receiver"), s)
  | some n =>
    match engineResult with
    | .error e => (.error e, s)
    | .ok (.frame d) =>
      let s1 := Node.new s newId (opName ++ "_" ++ n.name) d n.workspace [i]
        (some (opName ++ "(" ++ n.name ++ ")"))
      (.ok (.node newId), Workspace.add_node s1 n.workspace newId)
    | .ok (.series c) =>
      let s1 := Node.new s newId (opName ++ "_" ++ n.name) (.dataFrame c) n.workspace [i]
        (some (opName ++ "(" ++ n.name ++ ")"))
      (.ok (.node newId), Workspace.add_node s1 n.workspace newId)
    | .ok .intermediate => (.ok .proxy, s)
    | .ok (.plain v) => (.ok (.raw v), s)

/-! ## Graph queries that are stubs (workspace.py:653-671, 577-583) -/

/-- `Workspace.is_connected` (workspace.py:653-661): constant `True`. -/
def Workspace.is_connected (_w : Workspace) : Bool := true

/-- `Workspace.has_cycles` (workspace.py:663-671): constant `False`. -/
def Workspace.has_cycles (_w : Workspace) : Bool := false

/-- `Workspace.__bool__` (workspace.py:581-583): constant `True`. -/
def Workspace.toBool (_w : Workspace) : Bool := true

/-- `Workspace.__len__` (workspace.py:577-579). -/
def Workspace.len (w : Workspace) : Nat := w.nodeIds.length

/-! ## Serialization (workspace.py:244-356, node.py:596-710, docframe.py) -/

/-- The per-node `serialized_data` payload.  `docDF` is the DocDataFrame JSON
(docframe.py:456-499): `{metadata: {document_column_name}, data: rows}`.
`docLF` is the DocLazyFrame JSON (docframe.py:755-779): the collected inner
DocDataFrame payload (carrying `innerCol`) plus the outer `document_column`.
`dict` is the polars `to_dict` row payload (node.py:625-637; a LazyFrame is
collected first). -/
inductive Payload where
  | docDF (docCol : String) (rows : Content)
  | docLF (docCol : String) (innerCol : String) (rows : Content)
  | dict (rows : Content)
deriving DecidableEq

/-- One entry of the serialized `nodes` dict (node.py:596-648):
`node_metadata` fields, the `data_metadata.type` tag, and the payload. -/
structure SerNode where
  meta_id : NodeId
  meta_name : String
  meta_operation : Option String
  meta_dataType : String
  meta_isLazy : Bool
  dataType : String
  payload : Payload
deriving DecidableEq

/-- `Node.serialize` (node.py:596-648).  For the four supported wrappers the
try/except fallback in `Workspace.serialize` (workspace.py:268-284) is never
taken. -/
def Node.serialize (n : Node) : SerNode :=
  match n.data with
  | .docDataFrame c col =>
    { meta_id := n.id, meta_name := n.name, meta_operation := n.operation,
      meta_dataType := "DocDataFrame", meta_isLazy := n.data.is_lazy,
      dataType := "DocDataFrame", payload := .docDF col c }
  | .docLazyFrame c col =>
    { meta_id := n.id, meta_name := n.name, meta_operation := n.operation,
      meta_dataType := "DocLazyFrame", meta_isLazy := n.data.is_lazy,
      dataType := "DocLazyFrame", payload := .docLF col col c }
  | .dataFrame c =>
    { meta_id := n.id, meta_name := n.name, meta_operation := n.operation,
      meta_dataType := "DataFrame", meta_isLazy := n.data.is_lazy,
      dataType := "polars_DataFrame", payload := .dict c }
  | .lazyFrame c =>
    { meta_id := n.id, meta_name := n.name, meta_operation := n.operation,
      meta_dataType := "LazyFrame", meta_isLazy := n.data.is_lazy,
      dataType := "polars_LazyFrame", payload := .dict c }

/-- The serialized workspace document (workspace.py:257-264). -/
structure WorkspaceDoc where
  wid : WsId
  wname : String
  nodes : List (NodeId × SerNode)
  relationships : List (NodeId × NodeId)
deriving DecidableEq

/-- The `relationships` pass (workspace.py:286-291): every
`(node.id, child.id)` pair, in registry order, INCLUDING edges to children
that live outside this workspace. -/
def wsRelationships (s : State) : List NodeId → List (NodeId × NodeId)
  | [] => []
  | i :: rest =>
    (match s.getNode i with
     | some n => n.children.map fun c => (i, c)
     | none => []) ++ wsRelationships s rest

/-- `Workspace.serialize` (workspace.py:244-297), at the level of the emitted
document (file I/O and JSON encoding elided). -/
def Workspace.serialize (s : State) (target : WsId) : Option WorkspaceDoc :=
  (s.getWs target).map fun w =>
    { wid := w.id, wname := w.name,
      nodes := w.nodeIds.filterMap fun i => (s.getNode i).map fun n => (i, Node.serialize n),
      relationships := wsRelationships s w.nodeIds }

/-- Decoding of a payload by its `data_metadata.type` tag (node.py:677-695):
`DocDataFrame.deserialize` rebuilds from the payload's column metadata;
`DocLazyFrame.deserialize` (docframe.py:783-829) rebuilds the inner frame,
re-lazifies it and applies the OUTER `document_column`; the polars tags
rebuild a DataFrame and lazify for the LazyFrame tag.  Any other tag raises
`ValueError`, which the workspace-level loop catches per node (`none`). -/
def payloadDecode (tag : String) (p : Payload) : Option PlData :=
  if tag = "DocDataFrame" then
    match p with
    | .docDF col c => some (.docDataFrame c col)
    | _ => none
  else if tag = "DocLazyFrame" then
    match p with
    | .docLF col _icol c => some (.docLazyFrame c col)
    | _ => none
  else if tag = "polars_DataFrame" then
    match p with
    | .dict c => some (.dataFrame c)
    | _ => none
  else if tag = "polars_LazyFrame" then
    match p with
    | .dict c => some (.lazyFrame c)
    | _ => none
  else none

/-- `Node.deserialize` (node.py:650-710): decode the data, rebuild the node
with EMPTY parent/child lists (edges are rebuilt from the recorded
relationship list only) and register it in the target workspace. -/
def Node.deserialize (sn : SerNode) (target : WsId) : Option Node :=
  (payloadDecode sn.dataType sn.payload).map fun d =>
    { id := sn.meta_id, name := sn.meta_name, data := d, parents := [], children := [],
      workspace := target, operation := sn.meta_operation }

/-- The self-contained result of `Workspace.deserialize`: a fresh workspace
object plus the heap of the node objects it owns (deserialization runs in a
fresh interpreter, sharing no objects with the serialized state). -/
structure WsState where
  heap : List (NodeId × Node)
  ws : Workspace
deriving DecidableEq

/-- `Workspace.deserialize` (workspace.py:299-356): rebuild every node whose
entry decodes (failures are skipped with a warning), registering each under
its metadata id; then walk the recorded relationship list and, for every pair
whose two endpoints were rebuilt, append the child to the parent's `children`
and the parent to the child's `parents`, skipping duplicates. -/
def Workspace.deserialize (doc : WorkspaceDoc) : WsState :=
  let decoded : List (NodeId × Node) :=
    doc.nodes.filterMap fun kv => (Node.deserialize kv.2 doc.wid).map fun n => (kv.1, n)
  let heap0 : List (NodeId × Node) := decoded.map fun kv => (kv.2.id, kv.2)
  let heap1 := doc.relationships.foldl
    (fun h pc =>
      match (lookupA pc.1 decoded).map Node.id, (lookupA pc.2 decoded).map Node.id with
      | some pi, some ci =>
        updA ci (fun n => if pi ∈ n.parents then n else { n with parents := n.parents ++ [pi] })
          (updA pi (fun n => if ci ∈ n.children then n else { n with children := n.children ++ [ci] }) h)
      | _, _ => h)
    heap0
  { heap := heap1,
    ws := { id := doc.wid, name := doc.wname, nodeIds := heap0.map Prod.fst } }

/-- The node skeleton `Node.deserialize` rebuilds from a serialized entry of
node `n`: same id, name, data and operation; empty edge lists; workspace
repointed at the deserializing workspace. -/
def resetNode (target : WsId) (n : Node) : Node :=
  { id := n.id, name := n.name, data := n.data, parents := [], children := [],
    workspace := target, operation := n.operation }

/-! ## Concrete sample states (used by witnesses and counterexamples) -/

/-- A state holding one empty workspace object (id 0). -/
def wsOnly : State := { heap := [], wss := [(0, { id := 0, name := "w", nodeIds := [] })] }

/-- `wsOnly` after constructing root node 10 (a lazy frame) in workspace 0. -/
def sampleA : State := Node.new wsOnly 10 "A" (.lazyFrame [[1]]) 0 [] none

/-- `sampleA` after constructing node 11 as a child of node 10 in workspace 0. -/
def sampleAB : State := Node.new sampleA 11 "B" (.lazyFrame [[1]]) 0 [10] none

/-- `sampleA` plus a second root node 12 holding an eager frame. -/
def sampleAC : State := Node.new sampleA 12 "C" (.dataFrame [[2]]) 0 [] none

/-- Two eager root nodes: a plain frame (20) and a document frame (21). -/
def sampleJ : State :=
  Node.new (Node.new wsOnly 20 "P" (.dataFrame [[1]]) 0 [] none)
    21 "Q" (.docDataFrame [[2]] "text") 0 [] none

/-- A lazy document frame (30) and an eager plain frame (31): a mixed-laziness
join pair. -/
def sampleMix : State :=
  Node.new (Node.new wsOnly 30 "L" (.docLazyFrame [[1]] "text") 0 [] none)
    31 "E" (.dataFrame [[2]]) 0 [] none

/-- A state holding two empty workspace objects (ids 0 and 1). -/
def wsTwo : State :=
  { heap := [],
    wss := [(0, { id := 0, name := "w0", nodeIds := [] }),
            (1, { id := 1, name := "w1", nodeIds := [] })] }

/-- Node 10 lives in workspace 0 while its child 11 was constructed directly
into workspace 1: a cross-workspace parent/child edge, reachable through the
public constructor. -/
def sampleCross : State :=
  Node.new (Node.new wsTwo 10 "A" (.dataFrame [[1]]) 0 [] none)
    11 "B" (.dataFrame [[2]]) 1 [10] none

/-- Workspace 1 holds the chain 21 → 22; workspace 0 is empty. -/
def sampleMove : State :=
  Node.new (Node.new wsTwo 21 "R" (.dataFrame [[1]]) 1 [] none)
    22 "S" (.dataFrame [[2]]) 1 [21] none

/-! ## State invariants and reachability -/

/-- Ownership coherence (property P2's forward direction, maintained by every
public operation): workspace ids are unique, each workspace's dict has unique
keys, and every id registered in a workspace's dict belongs to a live node
whose `workspace` field points back to that workspace. -/
def State.Coherent (s : State) : Prop :=
  (keysA s.wss).Nodup ∧
  ∀ kw ∈ s.wss, (kw.2 : Workspace).nodeIds.Nodup ∧
    ∀ i ∈ (kw.2 : Workspace).nodeIds, s.nodeWorkspace i = some kw.1

/-- Facts relating a state to its successor under the child-moving recursion
of `add_node`: heap objects survive with all fields preserved except possibly
a workspace re-pointing at the target; target membership only grows; every
other workspace only shrinks; and every newly registered node points at the
target workspace and is registered nowhere else. -/
def MoveStep (target : WsId) (s t : State) : Prop :=
  (∀ x n0, s.getNode x = some n0 → ∃ n1, t.getNode x = some n1 ∧
      n1.id = n0.id ∧ n1.name = n0.name ∧ n1.data = n0.data ∧
      n1.parents = n0.parents ∧ n1.children = n0.children ∧
      n1.operation = n0.operation ∧
      (n1.workspace = n0.workspace ∨
        (n1.workspace = target ∧ x ∈ t.wsMembers target ∧ x ∉ s.wsMembers target))) ∧
  (∀ x, s.getNode x = none → t.getNode x = none) ∧
  (∀ i, i ∈ s.wsMembers target → i ∈ t.wsMembers target) ∧
  (∀ k, k ≠ target → ∀ i, i ∈ t.wsMembers k → i ∈ s.wsMembers k) ∧
  (∀ x, x ∈ t.wsMembers target → x ∉ s.wsMembers target →
      t.nodeWorkspace x = some target ∧ ∀ k, k ≠ target → x ∉ t.wsMembers k)

/-- Number of heap ids not yet registered in the target workspace; the
decreasing measure of `move_children_recursive`. -/
def freshCount (target : WsId) (s : State) : Nat :=
  ((keysA s.heap).filter fun i => decide (i ∉ s.wsMembers target)).length

/-- Heap closure: every child edge of a live node points at a live node.
(Python guarantees this trivially: edges hold object references.) -/
def State.Closed (s : State) : Prop :=
  ∀ kv ∈ s.heap, ∀ c ∈ (kv.2 : Node).children, c ∈ keysA s.heap

instance (s : State) : Decidable s.Coherent := by
  unfold State.Coherent; infer_instance

instance (s : State) : Decidable s.Closed := by
  unfold State.Closed; infer_instance

/-- Reachability from `x` along child edges through nodes that all avoid the
set `avoid` (the start `x` itself is exempt).  This captures exactly which
descendants `move_children_recursive` can reach without being stopped by the
already-registered check. -/
inductive FreshReach (s : State) (avoid : List NodeId) : NodeId → NodeId → Prop
  | refl (x : NodeId) : FreshReach s avoid x x
  | step {x y z : NodeId} : FreshReach s avoid x y → z ∈ s.childrenOf y →
      z ∉ avoid → FreshReach s avoid x z

/-- Accumulated guarantees of one `move_children_recursive` call, relative to
the state at its entry: a `MoveStep`, preservation of coherence, closure and
heap keys, a non-increasing fresh count, unchanged children lists, and the
closure property that every newly registered node has all its children
registered. -/
def MovedOk (target : WsId) (s t : State) : Prop :=
  MoveStep target s t ∧ t.Coherent ∧ t.Closed ∧
  keysA t.heap = keysA s.heap ∧
  freshCount target t ≤ freshCount target s ∧
  (∀ y, t.childrenOf y = s.childrenOf y) ∧
  (∀ y, y ∈ t.wsMembers target → y ∉ s.wsMembers target →
      ∀ z ∈ s.childrenOf y, z ∈ t.wsMembers target)

/-! ## Association-list lemmas -/

theorem lookupA_mem {α : Type} {k : Nat} {v : α} {l : List (Nat × α)}
    (h : lookupA k l = some v) : (k, v) ∈ l := by
  induction l with
  | nil => simp [lookupA] at h
  | cons kv rest ih =>
    by_cases hk : kv.1 = k
    · rw [show lookupA k (kv :: rest) = some kv.2 by simp [lookupA, hk]] at h
      cases h
      have : (k, kv.2) = kv := by
        cases kv
        simp_all
      rw [this]
      exact List.mem_cons_self _ _
    · rw [show lookupA k (kv :: rest) = lookupA k rest by simp [lookupA, hk]] at h
      exact List.mem_cons_of_mem _ (ih h)

theorem lookupA_append {α : Type} (k : Nat) (l₁ l₂ : List (Nat × α)) :
    lookupA k (l₁ ++ l₂) =
      match lookupA k l₁ with
      | some v => some v
      | none => lookupA k l₂ := by
  induction l₁ with
  | nil => simp [lookupA]
  | cons kv rest ih =>
    by_cases h : kv.1 = k <;> simp [lookupA, h, ih]

theorem lookupA_updA {α : Type} (k j : Nat) (f : α → α) (l : List (Nat × α)) :
    lookupA j (updA k f l) =
      if j = k then (lookupA j l).map f else lookupA j l := by
  induction l with
  | nil =>
    by_cases h : j = k
    · rw [if_pos h]; rfl
    · rw [if_neg h]; rfl
  | cons kv rest ih =>
    by_cases hk : kv.1 = k
    · by_cases hj : kv.1 = j
      · have hjk : j = k := by rw [← hj, hk]
        show lookupA j ((if kv.1 = k then (kv.1, f kv.2) else kv) :: updA k f rest) = _
        rw [if_pos hk, if_pos hjk]
        show (if kv.1 = j then some (f kv.2) else lookupA j (updA k f rest)) = _
        rw [if_pos hj]
        show _ = ((if kv.1 = j then some kv.2 else lookupA j rest).map f)
        rw [if_pos hj]
        rfl
      · have hjk : ¬ j = k := fun hh => hj (by rw [hk, ← hh])
        show lookupA j ((if kv.1 = k then (kv.1, f kv.2) else kv) :: updA k f rest) = _
        rw [if_pos hk, if_neg hjk]
        show (if kv.1 = j then some (f kv.2) else lookupA j (updA k f rest)) = _
        rw [if_neg hj, ih, if_neg hjk]
        show _ = (if kv.1 = j then some kv.2 else lookupA j rest)
        rw [if_neg hj]
    · by_cases hj : kv.1 = j
      · have hjk : ¬ j = k := fun hh => hk (by rw [hj, hh])
        show lookupA j ((if kv.1 = k then (kv.1, f kv.2) else kv) :: updA k f rest) = _
        rw [if_neg hk, if_neg hjk]
        show (if kv.1 = j then some kv.2 else lookupA j (updA k f rest)) = _
        rw [if_pos hj]
        show _ = (if kv.1 = j then some kv.2 else lookupA j rest)
        rw [if_pos hj]
      · show lookupA j ((if kv.1 = k then (kv.1, f kv.2) else kv) :: updA k f rest) = _
        rw [if_neg hk]
        show (if kv.1 = j then some kv.2 else lookupA j (updA k f rest)) = _
        rw [if_neg hj, ih]
        by_cases hjk : j = k
        · rw [if_pos hjk, if_pos hjk]
          show _ = ((if kv.1 = j then some kv.2 else lookupA j rest).map f)
          rw [if_neg hj]
        · rw [if_neg hjk, if_neg hjk]
          show _ = (if kv.1 = j then some kv.2 else lookupA j rest)
          rw [if_neg hj]

theorem keysA_updA {α : Type} (k : Nat) (f : α → α) (l : List (Nat × α)) :
    keysA (updA k f l) = keysA l := by
  induction l with
  | nil => rfl
  | cons kv rest ih =>
    show ((if kv.1 = k then (kv.1, f kv.2) else kv).1) :: keysA (updA k f rest)
        = kv.1 :: keysA rest
    by_cases h : kv.1 = k
    · rw [if_pos h, ih]
    · rw [if_neg h, ih]

theorem lookupA_eq_none_iff {α : Type} (k : Nat) (l : List (Nat × α)) :
    lookupA k l = none ↔ k ∉ keysA l := by
  induction l with
  | nil => simp [lookupA, keysA]
  | cons kv rest ih =>
    by_cases h : kv.1 = k
    · simp [lookupA, keysA, h]
    · simp [lookupA, keysA, h, ih]
      tauto

theorem lookupA_isSome_of_mem_keys {α : Type} {k : Nat} {l : List (Nat × α)}
    (h : k ∈ keysA l) : (lookupA k l).isSome := by
  cases hl : lookupA k l with
  | none => exact absurd ((lookupA_eq_none_iff k l).mp hl) (by simpa using h)
  | some v => rfl

/-- A generic foldl invariant-preservation helper. -/
theorem foldl_invariant {α β : Type} (P : α → Prop) (step : α → β → α)
    (hstep : ∀ a b, P a → P (step a b)) :
    ∀ (l : List β) (a : α), P a → P (l.foldl step a) := by
  intro l
  induction l with
  | nil => intro a ha; exact ha
  | cons b rest ih => intro a ha; exact ih _ (hstep a b ha)

/-! ## Claim C9 -/

/-- Claim C9: for every workspace in any state, `has_cycles()` returns `False`
and `is_connected()` returns `True`, regardless of the actual edge structure
of the graph (both are constant stubs, workspace.py:653-671). -/
theorem graph_stub_queries :
    ∀ w : Workspace, Workspace.has_cycles w = false ∧ Workspace.is_connected w = true :=
  fun _ => ⟨rfl, rfl⟩

/-! ## Claim C10 -/

/-- Claim C10: `bool(W)` is `True` for every workspace, including one with
zero nodes, so truthiness never indicates emptiness (workspace.py:581-583). -/
theorem workspace_always_truthy :
    (∀ w : Workspace, Workspace.toBool w = true) ∧
    Workspace.len { id := 0, name := "empty", nodeIds := [] } = 0 ∧
    Workspace.toBool { id := 0, name := "empty", nodeIds := [] } = true :=
  ⟨fun _ => rfl, rfl, rfl⟩

/-! ## Claim C7 -/

/-- Claim C7: when the underlying engine invocation of a delegated operation
raises, `Node.__getattr__`'s wrapper creates and registers no node, leaves the
receiver's children untouched, and re-raises the exception unchanged
(node.py:408-479 has no try/except around `attr(*args, **kwargs)`). -/
theorem getattr_engine_error_propagates (s : State) (i newId : NodeId)
    (op : String) (n : Node) (e : PyErr) (h : s.getNode i = some n) :
    Node.getattr s i op newId (.error e) = (.error e, s) ∧
    (Node.getattr s i op newId (.error e)).2.wsMembers n.workspace
      = s.wsMembers n.workspace ∧
    (Node.getattr s i op newId (.error e)).2.childrenOf i = s.childrenOf i := by
  unfold Node.getattr
  rw [h]
  exact ⟨rfl, rfl, rfl⟩

/-- Witness for C7 at a concrete one-node state. -/
theorem getattr_engine_error_propagates_witness :
    Node.getattr
        { heap := [(0, { id := 0, name := "a", data := .dataFrame [[1]], parents := [],
                         children := [], workspace := 0, operation := none })],
          wss := [(0, { id := 0, name := "w", nodeIds := [0] })] }
        0 "filter" 1 (.error (.runtimeError "boom"))
      = (.error (.runtimeError "boom"),
         { heap := [(0, { id := 0, name := "a", data := .dataFrame [[1]], parents := [],
                          children := [], workspace := 0, operation := none })],
           wss := [(0, { id := 0, name := "w", nodeIds := [0] })] }) :=
  (getattr_engine_error_propagates _ 0 1 "filter"
    { id := 0, name := "a", data := .dataFrame [[1]], parents := [],
      children := [], workspace := 0, operation := none }
    (.runtimeError "boom") (by decide)).1

/-! ## Claim C8 -/

/-- Claim C8: on a lazy node whose underlying `collect()` raises
`AttributeError` or `TypeError`, `Node.collect` swallows the error and
returns the node itself with the whole state (heap and workspaces) unchanged,
and `Node.materialize` swallows the error and returns the node with its data
unchanged, hence still lazy (node.py:181-195, 223-232). -/
theorem collect_materialize_swallow_attr_type (s : State) (i newId : NodeId)
    (n : Node) (ec : Content → Except PyErr Content) (e : PyErr)
    (h : s.getNode i = some n) (hl : n.data.is_lazy = true)
    (hec : ec n.data.rows = .error e) (he : e = .attrError ∨ e = .typeError) :
    Node.collect s i newId ec = (.ok i, s) ∧
    Node.materialize s i ec = (.ok i, s) := by
  have hcd : dataCollect ec n.data = .error e := by
    cases hd : n.data with
    | dataFrame c => rw [hd] at hl; simp [PlData.is_lazy] at hl
    | docDataFrame c col => rw [hd] at hl; simp [PlData.is_lazy] at hl
    | lazyFrame c =>
      rw [hd] at hec; simp [PlData.rows] at hec
      simp [dataCollect, hec, Except.map]
    | docLazyFrame c col =>
      rw [hd] at hec; simp [PlData.rows] at hec
      simp [dataCollect, hec, Except.map]
  rcases he with he | he <;> subst he <;>
    exact ⟨by simp [Node.collect, h, hl, hcd], by simp [Node.materialize, h, hl, hcd]⟩

/-- Witness for C8: a lazy node whose engine collect raises `AttributeError`. -/
theorem collect_materialize_swallow_attr_type_witness :
    Node.collect
        { heap := [(0, { id := 0, name := "a", data := .lazyFrame [[1]], parents := [],
                         children := [], workspace := 0, operation := none })],
          wss := [(0, { id := 0, name := "w", nodeIds := [0] })] }
        0 1 (fun _ => .error .attrError)
      = (.ok 0,
         { heap := [(0, { id := 0, name := "a", data := .lazyFrame [[1]], parents := [],
                          children := [], workspace := 0, operation := none })],
           wss := [(0, { id := 0, name := "w", nodeIds := [0] })] }) ∧
    Node.materialize
        { heap := [(0, { id := 0, name := "a", data := .lazyFrame [[1]], parents := [],
                         children := [], workspace := 0, operation := none })],
          wss := [(0, { id := 0, name := "w", nodeIds := [0] })] }
        0 (fun _ => .error .attrError)
      = (.ok 0,
         { heap := [(0, { id := 0, name := "a", data := .lazyFrame [[1]], parents := [],
                          children := [], workspace := 0, operation := none })],
           wss := [(0, { id := 0, name := "w", nodeIds := [0] })] }) :=
  collect_materialize_swallow_attr_type _ 0 1
    { id := 0, name := "a", data := .lazyFrame [[1]], parents := [],
      children := [], workspace := 0, operation := none }
    (fun _ => .error .attrError) .attrError (by decide) (by decide) rfl (Or.inl rfl)

/-! ## State accessor lemmas -/

theorem getNode_updNode (s : State) (c x : NodeId) (f : Node → Node) :
    (s.updNode c f).getNode x = if x = c then (s.getNode x).map f else s.getNode x :=
  lookupA_updA c x f s.heap

theorem getWs_updWs (s : State) (k j : WsId) (f : Workspace → Workspace) :
    (s.updWs k f).getWs j = if j = k then (s.getWs j).map f else s.getWs j :=
  lookupA_updA k j f s.wss

theorem getNode_updWs (s : State) (k : WsId) (f : Workspace → Workspace) (x : NodeId) :
    (s.updWs k f).getNode x = s.getNode x := rfl

theorem getWs_updNode (s : State) (c : NodeId) (f : Node → Node) (k : WsId) :
    (s.updNode c f).getWs k = s.getWs k := rfl

/-! ## Claim C1 -/

/-- `Node.materialize` only rewrites the `data` field of one node: every
node's `children` list is untouched. -/
theorem materialize_shape (s : State) (c : NodeId)
    (ec : Content → Except PyErr Content) (x : NodeId) :
    ((Node.materialize s c ec).2.getNode x).map Node.children
      = (s.getNode x).map Node.children := by
  unfold Node.materialize
  cases hg : s.getNode c with
  | none => rfl
  | some n =>
    by_cases hl : n.data.is_lazy = true
    · simp only [hl, if_true]
      cases hdc : dataCollect ec n.data with
      | ok d =>
        show (((s.updNode c _).getNode x).map Node.children) = _
        rw [getNode_updNode]
        by_cases hx : x = c
        · rw [if_pos hx, Option.map_map]
          rfl
        · rw [if_neg hx]
      | error e => cases e <;> rfl
    · have hl' : n.data.is_lazy = false := by
        revert hl; cases n.data.is_lazy <;> simp
      simp [hl']

/-- The child-materialization loop of `remove_node` leaves every `children`
list untouched. -/
theorem materializeList_shape (ec : Content → Except PyErr Content)
    (l : List NodeId) :
    ∀ (s : State) (x : NodeId),
      ((materializeList ec l s).2.getNode x).map Node.children
        = (s.getNode x).map Node.children := by
  induction l with
  | nil => intro s x; rfl
  | cons c rest ih =>
    intro s x
    have hms := materialize_shape s c ec x
    show ((match Node.materialize s c ec with
           | (.ok _, s1) => materializeList ec rest s1
           | (.error e, s1) => (some e, s1)).2.getNode x).map Node.children = _
    cases hmz : Node.materialize s c ec with
    | mk r s1 =>
      rw [hmz] at hms
      cases r with
      | ok v => exact (ih s1 x).trans hms
      | error e => exact hms

/-- Effect of the parent-severing loop of `remove_node` on the number of
occurrences of the removed id in each node's `children` list: each occurrence
of a node in `node.parents` erases one occurrence. -/
theorem sever_foldl_count (i : NodeId) (ps : List NodeId) :
    ∀ (s : State) (x : NodeId),
      ((ps.foldl (fun acc p =>
          acc.updNode p fun n => { n with children := n.children.erase i }) s).getNode x).map
        (fun n => n.children.count i)
      = (s.getNode x).map (fun n => n.children.count i - ps.count x) := by
  induction ps with
  | nil =>
    intro s x
    rw [List.foldl_nil]
    cases hg : s.getNode x with
    | none => rfl
    | some n => simp
  | cons p rest ih =>
    intro s x
    rw [List.foldl_cons, ih, getNode_updNode]
    by_cases hx : x = p
    · rw [if_pos hx]
      cases hg : s.getNode x with
      | none => rfl
      | some n =>
        show some (List.count i (n.children.erase i) - List.count x rest)
            = some (List.count i n.children - List.count x (p :: rest))
        have hc : List.count i (n.children.erase i) = List.count i n.children - 1 :=
          List.count_erase_self i n.children
        have hp : List.count x (p :: rest) = List.count x rest + 1 := by
          rw [hx]
          exact List.count_cons_self p rest
        rw [hc, hp]
        congr 1
        omega
    · rw [if_neg hx]
      cases hg : s.getNode x with
      | none => rfl
      | some n =>
        show some (List.count i n.children - List.count x rest)
            = some (List.count i n.children - List.count x (p :: rest))
        have hp : List.count x (p :: rest) = List.count x rest := by
          apply List.count_cons_of_ne
          intro hh
          exact hx hh
        rw [hp]

/-- Evaluation of `remove_node` when the node is registered and the
child-materialization phase does not raise. -/
theorem remove_node_eq_ok (s : State) (target : WsId) (i : NodeId) (w : Workspace)
    (node : Node) (ec : Content → Except PyErr Content) (mat : Bool) (s1 : State)
    (hw : s.getWs target = some w) (hmem : i ∈ w.nodeIds) (hnode : s.getNode i = some node)
    (hm : (if mat then materializeList ec node.children s else (none, s)) = (none, s1)) :
    Workspace.remove_node s target i ec mat =
      (.ok true,
        (node.parents.foldl
            (fun acc p => acc.updNode p fun n => { n with children := n.children.erase i })
            s1).updWs target fun w2 => { w2 with nodeIds := w2.nodeIds.erase i }) := by
  unfold Workspace.remove_node
  simp only [hw, hnode]
  rw [if_neg (fun hh => hh hmem), hm]

/-- Evaluation of `remove_node` when a child materialization raises: the
engine error propagates. -/
theorem remove_node_eq_err (s : State) (target : WsId) (i : NodeId) (w : Workspace)
    (node : Node) (ec : Content → Except PyErr Content) (mat : Bool) (s1 : State) (e : PyErr)
    (hw : s.getWs target = some w) (hmem : i ∈ w.nodeIds) (hnode : s.getNode i = some node)
    (hm : (if mat then materializeList ec node.children s else (none, s)) = (some e, s1)) :
    Workspace.remove_node s target i ec mat = (.error e, s1) := by
  unfold Workspace.remove_node
  simp only [hw, hnode]
  rw [if_neg (fun hh => hh hmem), hm]

/-- Claim C1 as stated is false on the code: in `sampleAB` (workspace 0 holds
node 10 with child node 11), `remove_node(10)` returns `True` and node 11
remains registered, yet 11's `parents` list still contains the removed id 10 —
`remove_node` severs only the parents' child lists, never the children's
parent lists (workspace.py:169-175). -/
theorem remove_node_full_sever_counterexample :
    (Workspace.remove_node sampleAB 0 10 (fun c => .ok c) false).1 = .ok true ∧
    11 ∈ (Workspace.remove_node sampleAB 0 10 (fun c => .ok c) false).2.wsMembers 0 ∧
    ((Workspace.remove_node sampleAB 0 10 (fun c => .ok c) false).2.getNode 11).map
        Node.parents = some [10] :=
  ⟨by decide, by decide, by decide⟩

/-- Claim C1 (amended): after `W.remove_node(id)` returns `True`, no live node
lists the removed node in its CHILDREN list (the removed node is erased from
its parents' child lists, once per parent occurrence); the removed id may
remain in its children's `parents` lists.  The counting hypothesis is edge
symmetry with multiplicity, which every public operation maintains. -/
theorem remove_node_severs_child_lists (s : State) (target : WsId) (i : NodeId)
    (w : Workspace) (node : Node) (ec : Content → Except PyErr Content) (mat : Bool)
    (hw : s.getWs target = some w) (hmem : i ∈ w.nodeIds) (hnode : s.getNode i = some node)
    (hok : (Workspace.remove_node s target i ec mat).1 = Except.ok true)
    (hcount : ∀ kv ∈ s.heap, List.count i (kv.2 : Node).children ≤ List.count kv.1 node.parents) :
    ∀ x nx, (Workspace.remove_node s target i ec mat).2.getNode x = some nx →
      i ∉ nx.children := by
  intro x nx hx
  cases hml : (if mat then materializeList ec node.children s else (none, s)) with
  | mk o s1 =>
    cases o with
    | some e =>
      rw [remove_node_eq_err s target i w node ec mat s1 e hw hmem hnode hml] at hok
      exact Except.noConfusion hok
    | none =>
      rw [remove_node_eq_ok s target i w node ec mat s1 hw hmem hnode hml] at hx
      rw [getNode_updWs] at hx
      -- `s1` has the same children lists as `s`
      have hsh : ∀ y, (s1.getNode y).map Node.children = (s.getNode y).map Node.children := by
        intro y
        by_cases hmat : mat
        · rw [hmat, if_pos rfl] at hml
          have : s1 = (materializeList ec node.children s).2 := by rw [hml]
          rw [this]
          exact materializeList_shape ec node.children s y
        · rw [if_neg hmat] at hml
          cases hml
          rfl
      -- occurrence counting through the severing loop
      have hcnt := sever_foldl_count i node.parents s1 x
      rw [hx] at hcnt
      rcases Option.map_eq_some'.mp hcnt.symm with ⟨n1, hn1, hv1⟩
      have hch : (s.getNode x).map Node.children = some n1.children := by
        rw [← hsh x, hn1]
        rfl
      rcases Option.map_eq_some'.mp hch with ⟨n0, hn0, hv0⟩
      have hle : List.count i n0.children ≤ List.count x node.parents :=
        hcount (x, n0) (lookupA_mem hn0)
      have hv1' : List.count i nx.children
          = List.count i n1.children - List.count x node.parents := hv1.symm
      have hc01 : List.count i n0.children = List.count i n1.children := by
        rw [hv0]
      have hzero : List.count i nx.children = 0 := by omega
      exact List.count_eq_zero.mp hzero

/-- Witness for the amended C1 at a concrete input: removing child node 11
from `sampleAB` cleans node 10's children list. -/
theorem remove_node_severs_child_lists_witness :
    ((Workspace.remove_node sampleAB 0 11 (fun c => .ok c) false).2.getNode 10
      = some { id := 10, name := "A", data := .lazyFrame [[1]], parents := [],
               children := [], workspace := 0, operation := none }) ∧
    (11 : NodeId) ∉
      ({ id := 10, name := "A", data := .lazyFrame [[1]], parents := [],
         children := [], workspace := 0, operation := none } : Node).children :=
  ⟨by decide,
   remove_node_severs_child_lists sampleAB 0 11
     { id := 0, name := "w", nodeIds := [10, 11] }
     { id := 11, name := "B", data := .lazyFrame [[1]], parents := [10],
       children := [], workspace := 0, operation := none }
     (fun c => .ok c) false (by decide) (by decide) (by decide) (by decide) (by decide)
     10 _ (by decide)⟩

/-! ## Node construction lemmas -/

/-- `add_node` is a no-op when the node is already registered
(workspace.py:113-115). -/
theorem add_node_already_present (s : State) (target : WsId) (i : NodeId)
    (w : Workspace) (hw : s.getWs target = some w) (hmem : i ∈ w.nodeIds) :
    Workspace.add_node s target i = s := by
  unfold Workspace.add_node
  simp only [hw]
  rw [if_pos hmem]

/-- `move_children_recursive` does nothing on a node without children. -/
theorem moveChildren_no_children (target : WsId) (fuel : Nat) (s : State)
    (cur : NodeId) (n : Node) (hg : s.getNode cur = some n) (hc : n.children = []) :
    moveChildren target fuel s cur = s := by
  cases fuel with
  | zero => rfl
  | succ f =>
    unfold moveChildren
    simp only [hg, hc]
    rfl

/-- `registerNode` read off at the registered id. -/
theorem registerNode_getNode_self (s : State) (target : WsId) (i : NodeId) :
    (registerNode s target i).getNode i
      = (s.getNode i).map fun n => { n with workspace := target } := by
  unfold registerNode
  rw [getNode_updNode, if_pos rfl]
  rfl

/-- `registerNode` read off at any other id. -/
theorem registerNode_getNode_other (s : State) (target : WsId) (i x : NodeId)
    (hx : x ≠ i) :
    (registerNode s target i).getNode x = s.getNode x := by
  unfold registerNode
  rw [getNode_updNode, if_neg hx]
  rfl

/-- `registerNode` read off on workspaces. -/
theorem registerNode_getWs (s : State) (target : WsId) (i : NodeId) (k : WsId) :
    (registerNode s target i).getWs k
      = if k = target then (s.getWs k).map (fun w => { w with nodeIds := w.nodeIds ++ [i] })
        else s.getWs k := by
  unfold registerNode
  rw [getWs_updNode, getWs_updWs]

/-- `add_node` on a fresh childless node already pointing at the target
workspace reduces to plain registration. -/
theorem add_node_fresh_no_children (s : State) (target : WsId) (i : NodeId)
    (w : Workspace) (n : Node)
    (hw : s.getWs target = some w) (hnm : i ∉ w.nodeIds)
    (hg : s.getNode i = some n) (hws : n.workspace = target) (hch : n.children = []) :
    Workspace.add_node s target i = registerNode s target i := by
  unfold Workspace.add_node
  simp only [hw, hg]
  rw [if_neg hnm]
  have hdet : detachPrev s target i = s := by
    unfold detachPrev
    simp only [hg]
    rw [if_neg (fun hh => hh hws)]
  rw [hdet]
  apply moveChildren_no_children target _ _ i { n with workspace := target }
  · rw [registerNode_getNode_self, hg]
    rfl
  · exact hch

/-- Effect of the parent loop of `Node.__init__` (node.py:144-146): each
occurrence of a node in the parent list appends the fresh id once to that
node's `children`. -/
theorem appendChild_foldl (newId : NodeId) (ps : List NodeId) :
    ∀ (s : State) (x : NodeId),
      ((ps.foldl (fun acc p =>
          acc.updNode p fun n => { n with children := n.children ++ [newId] }) s).getNode x)
        = (s.getNode x).map
            (fun n => { n with children := n.children ++ List.replicate (List.count x ps) newId }) := by
  induction ps with
  | nil =>
    intro s x
    rw [List.foldl_nil]
    cases hg : s.getNode x with
    | none => rfl
    | some n =>
      show some n
          = some { n with children := n.children ++ List.replicate (List.count x []) newId }
      rw [List.count_nil]
      cases n
      simp
  | cons p rest ih =>
    intro s x
    rw [List.foldl_cons, ih, getNode_updNode]
    by_cases hx : x = p
    · rw [if_pos hx]
      cases hg : s.getNode x with
      | none => rfl
      | some n =>
        show (some { n with
              children := (n.children ++ [newId]) ++ List.replicate (List.count x rest) newId }
            : Option Node)
            = (some { n with
              children := n.children ++ List.replicate (List.count x (p :: rest)) newId }
            : Option Node)
        have hp : List.count x (p :: rest) = List.count x rest + 1 := by
          rw [hx]
          exact List.count_cons_self p rest
        have hrep : [newId] ++ List.replicate (List.count x rest) newId
            = List.replicate (List.count x rest + 1) newId := by
          rw [List.singleton_append, List.replicate_succ]
        rw [hp, List.append_assoc, hrep]
    · rw [if_neg hx]
      cases hg : s.getNode x with
      | none => rfl
      | some n =>
        show (some { n with children := n.children ++ List.replicate (List.count x rest) newId }
            : Option Node)
            = (some { n with children := n.children ++ List.replicate (List.count x (p :: rest)) newId }
            : Option Node)
        have hp : List.count x (p :: rest) = List.count x rest := by
          apply List.count_cons_of_ne
          intro hh
          exact hx hh
        rw [hp]

/-- Closed form of `Node.__init__` (node.py:98-146) for a fresh id: append the
object to the heap, register it in the target workspace (the recursive child
move is vacuous: the new node has no children), then append it to each
parent's children list. -/
theorem nodeNew_eq (s : State) (newId : NodeId) (nm : String) (d : PlData)
    (target : WsId) (ps : List NodeId) (op : Option String) (w : Workspace)
    (hfresh : s.getNode newId = none) (hw : s.getWs target = some w)
    (hnm : newId ∉ w.nodeIds) :
    Node.new s newId nm d target ps op
      = ps.foldl (fun acc p => acc.updNode p fun n => { n with children := n.children ++ [newId] })
          (registerNode
            { s with heap := s.heap ++ [(newId,
                { id := newId, name := nm, data := d, parents := ps, children := [],
                  workspace := target, operation := op })] }
            target newId) := by
  have hw1 : ({ s with heap := s.heap ++ [(newId,
      { id := newId, name := nm, data := d, parents := ps, children := [],
        workspace := target, operation := op })] } : State).getWs target = some w := hw
  have hg1 : ({ s with heap := s.heap ++ [(newId,
      { id := newId, name := nm, data := d, parents := ps, children := [],
        workspace := target, operation := op })] } : State).getNode newId
      = some { id := newId, name := nm, data := d, parents := ps, children := [],
               workspace := target, operation := op } := by
    show lookupA newId (s.heap ++ [(newId, _)]) = _
    rw [lookupA_append]
    rw [show lookupA newId s.heap = none from hfresh]
    simp [lookupA]
  unfold Node.new
  simp only [hw1]
  rw [if_neg hnm]
  rw [add_node_fresh_no_children _ target newId w _ hw1 hnm hg1 rfl rfl]

/-- The parent loop never touches the workspace registry. -/
theorem appendChild_foldl_wss (newId : NodeId) (ps : List NodeId) :
    ∀ s : State,
      (ps.foldl (fun acc p =>
          acc.updNode p fun n => { n with children := n.children ++ [newId] }) s).wss = s.wss := by
  induction ps with
  | nil => intro s; rfl
  | cons p rest ih =>
    intro s
    rw [List.foldl_cons]
    exact ih _

/-- Heap lookup of the freshly appended object. -/
theorem getNode_heap_append_new (s : State) (newId : NodeId) (node : Node)
    (hfresh : s.getNode newId = none) :
    ({ s with heap := s.heap ++ [(newId, node)] } : State).getNode newId = some node := by
  show lookupA newId (s.heap ++ [(newId, node)]) = some node
  rw [lookupA_append]
  rw [show lookupA newId s.heap = none from hfresh]
  simp [lookupA]

/-- Heap lookup away from the freshly appended object. -/
theorem getNode_heap_append_other (s : State) (newId : NodeId) (node : Node)
    (x : NodeId) (hx : x ≠ newId) :
    ({ s with heap := s.heap ++ [(newId, node)] } : State).getNode x = s.getNode x := by
  cases hg : s.getNode x with
  | some v =>
    show lookupA x (s.heap ++ [(newId, node)]) = some v
    rw [lookupA_append]
    rw [show lookupA x s.heap = some v from hg]
  | none =>
    show lookupA x (s.heap ++ [(newId, node)]) = none
    rw [lookupA_append]
    rw [show lookupA x s.heap = none from hg]
    show (if newId = x then some node else lookupA x []) = none
    rw [if_neg (fun hh => hx hh.symm)]
    rfl

/-- Two states with the same workspace registry agree on workspace lookups. -/
theorem getWs_eq_of_wss_eq {s t : State} (h : s.wss = t.wss) (k : WsId) :
    s.getWs k = t.getWs k := by
  show lookupA k s.wss = lookupA k t.wss
  rw [h]

/-- Workspace registry after `Node.__init__`: the target workspace gains the
fresh id at the end of its dict; all other workspaces are untouched. -/
theorem nodeNew_getWs (s : State) (newId : NodeId) (nm : String) (d : PlData)
    (target : WsId) (ps : List NodeId) (op : Option String) (w : Workspace) (k : WsId)
    (hfresh : s.getNode newId = none) (hw : s.getWs target = some w)
    (hnm : newId ∉ w.nodeIds) :
    (Node.new s newId nm d target ps op).getWs k
      = if k = target then some { w with nodeIds := w.nodeIds ++ [newId] }
        else s.getWs k := by
  rw [nodeNew_eq s newId nm d target ps op w hfresh hw hnm]
  rw [getWs_eq_of_wss_eq (appendChild_foldl_wss newId ps _) k]
  rw [registerNode_getWs]
  by_cases hk : k = target
  · rw [if_pos hk, if_pos hk, hk]
    rw [show ({ s with heap := s.heap ++ [(newId,
        { id := newId, name := nm, data := d, parents := ps, children := [],
          workspace := target, operation := op })] } : State).getWs target
      = some w from hw]
    rfl
  · rw [if_neg hk, if_neg hk]
    rfl

/-- The freshly constructed node as read back from the heap. -/
theorem nodeNew_getNode_new (s : State) (newId : NodeId) (nm : String) (d : PlData)
    (target : WsId) (ps : List NodeId) (op : Option String) (w : Workspace)
    (hfresh : s.getNode newId = none) (hw : s.getWs target = some w)
    (hnm : newId ∉ w.nodeIds) (hnps : newId ∉ ps) :
    (Node.new s newId nm d target ps op).getNode newId
      = some { id := newId, name := nm, data := d, parents := ps, children := [],
               workspace := target, operation := op } := by
  rw [nodeNew_eq s newId nm d target ps op w hfresh hw hnm, appendChild_foldl,
    registerNode_getNode_self, getNode_heap_append_new _ _ _ hfresh]
  have hc : List.count newId ps = 0 := List.count_eq_zero.mpr hnps
  show (some
      { id := newId, name := nm, data := d, parents := ps,
        children := [] ++ List.replicate (List.count newId ps) newId,
        workspace := target, operation := op } : Option Node) = _
  rw [hc]
  rfl

/-- Other heap objects after `Node.__init__`: unchanged except that each
occurrence in the parent list appends the fresh id to `children`. -/
theorem nodeNew_getNode_old (s : State) (newId : NodeId) (nm : String) (d : PlData)
    (target : WsId) (ps : List NodeId) (op : Option String) (w : Workspace) (x : NodeId)
    (hfresh : s.getNode newId = none) (hw : s.getWs target = some w)
    (hnm : newId ∉ w.nodeIds) (hx : x ≠ newId) :
    (Node.new s newId nm d target ps op).getNode x
      = (s.getNode x).map
          (fun n => { n with children := n.children ++ List.replicate (List.count x ps) newId }) := by
  rw [nodeNew_eq s newId nm d target ps op w hfresh hw hnm, appendChild_foldl,
    registerNode_getNode_other _ _ _ _ hx, getNode_heap_append_other _ _ _ _ hx]

/-- Appending zero children is the identity. -/
theorem map_children_append_nil (o : Option Node) (newId : NodeId) :
    o.map (fun n => { n with children := n.children ++ List.replicate 0 newId }) = o := by
  cases o with
  | none => rfl
  | some n =>
    show some { n with children := n.children ++ [] } = some n
    rw [List.append_nil]

/-! ## Claim C5 -/

/-- Evaluation of `Node.join` when the engine join succeeds: wrap the result
in a fresh node; the trailing `add_node` is the idempotent no-op branch. -/
theorem join_ok_eq (s : State) (ej : Content → Content → Content)
    (i j newId : NodeId) (a b : Node) (w : Workspace) (jd : PlData)
    (ha : s.getNode i = some a) (hb : s.getNode j = some b)
    (hw : s.getWs a.workspace = some w)
    (hfresh : s.getNode newId = none) (hnm : newId ∉ w.nodeIds)
    (hjoin : dataJoin ej (prepareJoin a.data b.data).1 (prepareJoin a.data b.data).2
      = some jd) :
    Node.join s ej i j newId
      = (some newId,
         Node.new s newId ("join_" ++ a.name ++ "_" ++ b.name) jd a.workspace [i, j]
           (some ("join(" ++ a.name ++ ", " ++ b.name ++ ")"))) := by
  unfold Node.join
  simp only [ha, hb, hjoin]
  congr 1
  apply add_node_already_present _ _ _ { w with nodeIds := w.nodeIds ++ [newId] }
  · rw [nodeNew_getWs s newId _ jd a.workspace [i, j] _ w a.workspace hfresh hw hnm]
    rw [if_pos rfl]
  · simp

/-- Claim C5: every successful `A.join(B, ...)` yields a node whose parent
list is exactly `[A, B]`, in that order (node.py:318-324). -/
theorem join_parents_exact (s : State) (ej : Content → Content → Content)
    (i j newId : NodeId) (a b : Node) (w : Workspace) (jd : PlData)
    (ha : s.getNode i = some a) (hb : s.getNode j = some b)
    (hw : s.getWs a.workspace = some w)
    (hfresh : s.getNode newId = none) (hnm : newId ∉ w.nodeIds)
    (hi : i ≠ newId) (hj : j ≠ newId)
    (hjoin : dataJoin ej (prepareJoin a.data b.data).1 (prepareJoin a.data b.data).2
      = some jd) :
    (Node.join s ej i j newId).1 = some newId ∧
    ((Node.join s ej i j newId).2.getNode newId).map Node.parents = some [i, j] := by
  rw [join_ok_eq s ej i j newId a b w jd ha hb hw hfresh hnm hjoin]
  have hnps : newId ∉ [i, j] := by
    intro hmem
    rcases List.mem_cons.mp hmem with h | hmem2
    · exact hi h.symm
    · rcases List.mem_cons.mp hmem2 with h | h3
      · exact hj h.symm
      · exact absurd h3 (List.not_mem_nil _)
  refine ⟨rfl, ?_⟩
  rw [nodeNew_getNode_new s newId _ jd a.workspace [i, j] _ w hfresh hw hnm hnps]
  rfl

/-- Witness for C5: joining lazy node 10 with eager node 12 in `sampleAC`. -/
theorem join_parents_exact_witness :
    (Node.join sampleAC (fun x y => x ++ y) 10 12 13).1 = some 13 ∧
    ((Node.join sampleAC (fun x y => x ++ y) 10 12 13).2.getNode 13).map Node.parents
      = some [10, 12] :=
  join_parents_exact sampleAC (fun x y => x ++ y) 10 12 13
    { id := 10, name := "A", data := .lazyFrame [[1]], parents := [], children := [],
      workspace := 0, operation := none }
    { id := 12, name := "C", data := .dataFrame [[2]], parents := [], children := [],
      workspace := 0, operation := none }
    { id := 0, name := "w", nodeIds := [10, 12] }
    (.dataFrame [[1], [2]])
    (by decide) (by decide) (by decide) (by decide) (by decide)
    (by decide) (by decide) (by decide)

/-! ## Claim C2 -/

/-- Claim C2 as stated is false on the code: in `sampleMix`, node 30 holds a
lazy document frame and node 31 an eager plain frame — the wrapper kinds
differ and one input is document-designated — yet the join result keeps the
document designation: the mixed-laziness branch (node.py:254-262) collects
the `DocLazyFrame` into a `DocDataFrame`, and `DocDataFrame.join`
(docframe.py:405-429) rewraps the result with the left document column. -/
theorem join_doc_mix_counterexample :
    ((sampleMix.getNode 30).map (fun n => n.data.typeName) = some "DocLazyFrame") ∧
    ((sampleMix.getNode 31).map (fun n => n.data.typeName) = some "DataFrame") ∧
    (Node.join sampleMix (fun x y => x ++ y) 30 31 32).1 = some 32 ∧
    ((Node.join sampleMix (fun x y => x ++ y) 30 31 32).2.getNode 32).map
        (fun n => n.data.document_column) = some (some "text") :=
  ⟨by decide, by decide, by decide, by decide⟩

/-- Same-laziness mixed-kind joins strip the document designation: the
else-branch of the operand preparation (node.py:272-308) extracts the
underlying plain frames before joining. -/
theorem prepareJoin_same_laziness_mixed (ej : Content → Content → Content)
    (da db : PlData) (hlz : da.is_lazy = db.is_lazy)
    (hkind : da.typeName ≠ db.typeName)
    (hdoc : da.document_column ≠ none ∨ db.document_column ≠ none) :
    ∃ jd, dataJoin ej (prepareJoin da db).1 (prepareJoin da db).2 = some jd ∧
      jd.document_column = none := by
  cases da <;> cases db <;>
    first
      | exact ⟨_, rfl, rfl⟩
      | simp_all [PlData.is_lazy, PlData.typeName, PlData.document_column]

/-- Claim C2 (amended): when the two join inputs have EQUAL laziness and their
wrapper kinds differ, with at least one input document-designated, the result
is a plain (non-document-designated) table.  (When the two inputs differ in
laziness, the designation can survive — see the counterexample.) -/
theorem join_same_laziness_mixed_kinds_plain (s : State) (ej : Content → Content → Content)
    (i j newId : NodeId) (a b : Node) (w : Workspace)
    (ha : s.getNode i = some a) (hb : s.getNode j = some b)
    (hw : s.getWs a.workspace = some w)
    (hfresh : s.getNode newId = none) (hnm : newId ∉ w.nodeIds)
    (hi : i ≠ newId) (hj : j ≠ newId)
    (hlz : a.data.is_lazy = b.data.is_lazy)
    (hkind : a.data.typeName ≠ b.data.typeName)
    (hdoc : a.data.document_column ≠ none ∨ b.data.document_column ≠ none) :
    ∃ jd, (Node.join s ej i j newId).1 = some newId ∧
      ((Node.join s ej i j newId).2.getNode newId).map (fun n => n.data) = some jd ∧
      jd.document_column = none := by
  rcases prepareJoin_same_laziness_mixed ej a.data b.data hlz hkind hdoc with ⟨jd, hdj, hplain⟩
  have hnps : newId ∉ [i, j] := by
    intro hmem
    rcases List.mem_cons.mp hmem with h | hmem2
    · exact hi h.symm
    · rcases List.mem_cons.mp hmem2 with h | h3
      · exact hj h.symm
      · exact absurd h3 (List.not_mem_nil _)
  refine ⟨jd, ?_, ?_, hplain⟩
  · rw [join_ok_eq s ej i j newId a b w jd ha hb hw hfresh hnm hdj]
  · rw [join_ok_eq s ej i j newId a b w jd ha hb hw hfresh hnm hdj]
    rw [nodeNew_getNode_new s newId _ jd a.workspace [i, j] _ w hfresh hw hnm hnps]
    rfl

/-- Witness for the amended C2: joining eager plain node 20 with eager
document node 21 in `sampleJ` yields a plain table. -/
theorem join_same_laziness_mixed_kinds_plain_witness :
    (Node.join sampleJ (fun x y => x ++ y) 20 21 22).1 = some 22 ∧
    ((Node.join sampleJ (fun x y => x ++ y) 20 21 22).2.getNode 22).map
        (fun n => n.data.document_column) = some none := by
  rcases join_same_laziness_mixed_kinds_plain sampleJ (fun x y => x ++ y) 20 21 22
      { id := 20, name := "P", data := .dataFrame [[1]], parents := [], children := [],
        workspace := 0, operation := none }
      { id := 21, name := "Q", data := .docDataFrame [[2]] "text", parents := [],
        children := [], workspace := 0, operation := none }
      { id := 0, name := "w", nodeIds := [20, 21] }
      (by decide) (by decide) (by decide) (by decide) (by decide) (by decide) (by decide)
      (by decide) (by decide) (by decide)
    with ⟨jd, h1, h2, h3⟩
  refine ⟨h1, ?_⟩
  rcases Option.map_eq_some'.mp h2 with ⟨n22, hn22, hdata⟩
  have hdata' : n22.data = jd := hdata
  rw [hn22]
  show some (n22.data.document_column) = some none
  rw [hdata', h3]

/-! ## Claim C3 -/

/-- A successful `dataCollect` of a lazy wrapper yields an eager wrapper. -/
theorem dataCollect_ok_eager (ec : Content → Except PyErr Content) (pd d : PlData)
    (hl : pd.is_lazy = true) (hc : dataCollect ec pd = .ok d) : d.is_lazy = false := by
  cases pd with
  | dataFrame c => simp [PlData.is_lazy] at hl
  | docDataFrame c col => simp [PlData.is_lazy] at hl
  | lazyFrame c =>
    have hc' : Except.map PlData.dataFrame (ec c) = .ok d := hc
    cases he : ec c with
    | ok c2 =>
      rw [he] at hc'
      simp only [Except.map] at hc'
      cases hc'
      rfl
    | error e =>
      rw [he] at hc'
      simp only [Except.map] at hc'
      exact Except.noConfusion hc'
  | docLazyFrame c col =>
    have hc' : Except.map (fun c2 => PlData.docDataFrame c2 col) (ec c) = .ok d := hc
    cases he : ec c with
    | ok c2 =>
      rw [he] at hc'
      simp only [Except.map] at hc'
      cases hc'
      rfl
    | error e =>
      rw [he] at hc'
      simp only [Except.map] at hc'
      exact Except.noConfusion hc'

/-- Evaluation of `Node.collect` on a lazy node whose engine collect
succeeds: a fresh child node wraps the collected data; the trailing
`add_node` is the idempotent no-op branch (node.py:181-195). -/
theorem collect_lazy_ok_eq (s : State) (i newId : NodeId) (n : Node) (d : PlData)
    (w : Workspace) (ec : Content → Except PyErr Content)
    (ha : s.getNode i = some n) (hl : n.data.is_lazy = true)
    (hd : dataCollect ec n.data = .ok d)
    (hw : s.getWs n.workspace = some w)
    (hfresh : s.getNode newId = none) (hnm : newId ∉ w.nodeIds) :
    Node.collect s i newId ec
      = (.ok newId,
         Node.new s newId ("collect_" ++ n.name) d n.workspace [i]
           (some ("collect(" ++ n.name ++ ")"))) := by
  unfold Node.collect
  simp only [ha, hl, hd, if_true]
  congr 1
  apply add_node_already_present _ _ _ { w with nodeIds := w.nodeIds ++ [newId] }
  · rw [nodeNew_getWs s newId _ d n.workspace [i] _ w n.workspace hfresh hw hnm]
    rw [if_pos rfl]
  · simp

/-- Claim C3: `collect()` on a lazy node creates exactly one new EAGER child
node and returns it, leaving the calling node's data untouched (it stays
lazy) and every other object unchanged; a second `collect()` creates a second,
distinct child with the same collected content; `collect()` on an eager node
returns that very node with the whole state unchanged
(node.py:171-198). -/
theorem collect_asymmetry (s : State) (i newId newId2 : NodeId) (n : Node)
    (w : Workspace) (d : PlData) (ec : Content → Except PyErr Content)
    (ha : s.getNode i = some n) (hl : n.data.is_lazy = true)
    (hw : s.getWs n.workspace = some w)
    (hd : dataCollect ec n.data = .ok d)
    (hf1 : s.getNode newId = none) (hm1 : newId ∉ w.nodeIds)
    (hf2 : s.getNode newId2 = none) (hm2 : newId2 ∉ w.nodeIds)
    (hne : newId ≠ newId2) (hi1 : i ≠ newId) (hi2 : i ≠ newId2)
    (m : NodeId) (nm : Node) (hgm : s.getNode m = some nm)
    (hem : nm.data.is_lazy = false) :
    (Node.collect s i newId ec).1 = .ok newId ∧
    ((Node.collect s i newId ec).2.getNode newId).map Node.data = some d ∧
    d.is_lazy = false ∧
    ((Node.collect s i newId ec).2.getNode newId).map Node.parents = some [i] ∧
    ((Node.collect s i newId ec).2.getNode i)
      = some { n with children := n.children ++ [newId] } ∧
    (∀ x, x ≠ newId → x ≠ i → (Node.collect s i newId ec).2.getNode x = s.getNode x) ∧
    ((Node.collect (Node.collect s i newId ec).2 i newId2 ec).1 = .ok newId2 ∧
     ((Node.collect (Node.collect s i newId ec).2 i newId2 ec).2.getNode i).map Node.children
        = some ((n.children ++ [newId]) ++ [newId2]) ∧
     ((Node.collect (Node.collect s i newId ec).2 i newId2 ec).2.getNode newId).map Node.data
        = some d ∧
     ((Node.collect (Node.collect s i newId ec).2 i newId2 ec).2.getNode newId2).map Node.data
        = some d) ∧
    Node.collect s m newId ec = (.ok m, s) := by
  have hcnt1 : List.count i [i] = 1 := by simp
  have heq1 := collect_lazy_ok_eq s i newId n d w ec ha hl hd hw hf1 hm1
  -- facts about the state after the first collect
  have hs1i : (Node.collect s i newId ec).2.getNode i
      = some { n with children := n.children ++ [newId] } := by
    rw [heq1]
    rw [nodeNew_getNode_old s newId _ d n.workspace [i] _ w i hf1 hw hm1 hi1]
    rw [ha]
    show (some { n with children := n.children ++ List.replicate (List.count i [i]) newId }
        : Option Node) = _
    rw [hcnt1, List.replicate_one]
  have hs1new : (Node.collect s i newId ec).2.getNode newId
      = some { id := newId, name := "collect_" ++ n.name, data := d, parents := [i],
               children := [], workspace := n.workspace,
               operation := some ("collect(" ++ n.name ++ ")") } := by
    rw [heq1]
    apply nodeNew_getNode_new s newId _ d n.workspace [i] _ w hf1 hw hm1
    intro hmem
    rcases List.mem_cons.mp hmem with h | h3
    · exact hi1 h.symm
    · exact absurd h3 (List.not_mem_nil _)
  have hs1other : ∀ x, x ≠ newId → x ≠ i →
      (Node.collect s i newId ec).2.getNode x = s.getNode x := by
    intro x hx1 hx2
    rw [heq1]
    rw [nodeNew_getNode_old s newId _ d n.workspace [i] _ w x hf1 hw hm1 hx1]
    have hz : List.count x [i] = 0 := by
      apply List.count_eq_zero.mpr
      intro hmem
      rcases List.mem_cons.mp hmem with h | h3
      · exact hx2 h
      · exact absurd h3 (List.not_mem_nil _)
    rw [hz, map_children_append_nil]
  have hs1w : (Node.collect s i newId ec).2.getWs n.workspace
      = some { w with nodeIds := w.nodeIds ++ [newId] } := by
    rw [heq1]
    rw [nodeNew_getWs s newId _ d n.workspace [i] _ w n.workspace hf1 hw hm1]
    rw [if_pos rfl]
  have hs1f2 : (Node.collect s i newId ec).2.getNode newId2 = none := by
    rw [hs1other newId2 (fun hh => hne hh.symm) (fun hh => hi2 hh.symm), hf2]
  -- the second collect, applied to the node with the updated children list
  have heq2 := collect_lazy_ok_eq (Node.collect s i newId ec).2 i newId2
      { n with children := n.children ++ [newId] } d
      { w with nodeIds := w.nodeIds ++ [newId] } ec hs1i hl hd hs1w hs1f2
      (by
        intro hmem
        rcases List.mem_append.mp hmem with h | h2
        · exact hm2 h
        · rcases List.mem_cons.mp h2 with h | h3
          · exact hne h.symm
          · exact absurd h3 (List.not_mem_nil _))
  refine ⟨by rw [heq1], ?_, dataCollect_ok_eager ec n.data d hl hd, ?_, hs1i, hs1other,
    ⟨by rw [heq2], ?_, ?_, ?_⟩, ?_⟩
  · rw [hs1new]
    rfl
  · rw [hs1new]
    rfl
  · -- children of i after the second collect
    rw [heq2]
    rw [nodeNew_getNode_old _ newId2 _ d n.workspace [i] _ _ i hs1f2 hs1w
      (by
        intro hmem
        rcases List.mem_append.mp hmem with h | h2
        · exact hm2 h
        · rcases List.mem_cons.mp h2 with h | h3
          · exact hne h.symm
          · exact absurd h3 (List.not_mem_nil _)) hi2]
    rw [hs1i]
    show some ((n.children ++ [newId]) ++ List.replicate (List.count i [i]) newId2) = _
    rw [hcnt1, List.replicate_one]
  · -- the first child is untouched by the second collect
    rw [heq2]
    rw [nodeNew_getNode_old _ newId2 _ d n.workspace [i] _ _ newId hs1f2 hs1w
      (by
        intro hmem
        rcases List.mem_append.mp hmem with h | h2
        · exact hm2 h
        · rcases List.mem_cons.mp h2 with h | h3
          · exact hne h.symm
          · exact absurd h3 (List.not_mem_nil _)) hne]
    have hz : List.count newId [i] = 0 := by
      apply List.count_eq_zero.mpr
      intro hmem
      rcases List.mem_cons.mp hmem with h | h3
      · exact hi1 h.symm
      · exact absurd h3 (List.not_mem_nil _)
    rw [hz, map_children_append_nil, hs1new]
    rfl
  · -- the second child holds the same collected content
    rw [heq2]
    rw [nodeNew_getNode_new _ newId2 _ d n.workspace [i] _ _ hs1f2 hs1w
      (by
        intro hmem
        rcases List.mem_append.mp hmem with h | h2
        · exact hm2 h
        · rcases List.mem_cons.mp h2 with h | h3
          · exact hne h.symm
          · exact absurd h3 (List.not_mem_nil _))
      (by
        intro hmem
        rcases List.mem_cons.mp hmem with h | h3
        · exact hi2 h.symm
        · exact absurd h3 (List.not_mem_nil _))]
    rfl
  · -- eager no-op
    unfold Node.collect
    simp only [hgm]
    have hem' : nm.data.is_lazy ≠ true := by rw [hem]; exact Bool.false_ne_true
    rw [if_neg hem']

/-- Witness for C3 on `sampleAC`: two collects of lazy node 10 produce
children 14 and 15 with equal content; collect of eager node 12 is the
identity. -/
theorem collect_asymmetry_witness :
    (Node.collect sampleAC 10 14 Except.ok).1 = .ok 14 ∧
    ((Node.collect sampleAC 10 14 Except.ok).2.getNode 14).map Node.data
      = some (.dataFrame [[1]]) ∧
    ((Node.collect (Node.collect sampleAC 10 14 Except.ok).2 10 15 Except.ok).2.getNode 15).map
        Node.data = some (.dataFrame [[1]]) ∧
    Node.collect sampleAC 12 14 Except.ok = (.ok 12, sampleAC) := by
  obtain ⟨h1, h2, h3, h4, h5, h6, ⟨h7, h8, h9, h10⟩, h11⟩ :=
    collect_asymmetry sampleAC 10 14 15
      { id := 10, name := "A", data := .lazyFrame [[1]], parents := [], children := [],
        workspace := 0, operation := none }
      { id := 0, name := "w", nodeIds := [10, 12] }
      (.dataFrame [[1]]) Except.ok
      (by decide) (by decide) (by decide) (by decide) (by decide) (by decide)
      (by decide) (by decide) (by decide) (by decide) (by decide)
      12
      { id := 12, name := "C", data := .dataFrame [[2]], parents := [], children := [],
        workspace := 0, operation := none }
      (by decide) (by decide)
  exact ⟨h1, h2, h10, h11⟩

/-! ## Claim C4 -/

/-- Per-node round trip: decoding a serialized node rebuilds the same id,
name, data (hence laziness and content) and operation, with empty edge
lists. -/
theorem node_serialize_roundtrip (n : Node) (target : WsId) :
    Node.deserialize (Node.serialize n) target = some (resetNode target n) := by
  cases hd : n.data <;>
    simp [Node.serialize, Node.deserialize, payloadDecode, resetNode, hd]

/-- Decoding the serialized node list of a workspace recovers, per id, the
reset skeleton of the original node. -/
theorem decoded_eq (s : State) (target : WsId) :
    ∀ ids : List NodeId,
      ((ids.filterMap fun i => (s.getNode i).map fun n => (i, Node.serialize n)).filterMap
        fun kv => (Node.deserialize kv.2 target).map fun n2 => (kv.1, n2))
      = ids.filterMap fun i => (s.getNode i).map fun n => (i, resetNode target n) := by
  intro ids
  induction ids with
  | nil => rfl
  | cons i rest ih =>
    cases hg : s.getNode i with
    | none => simp [List.filterMap_cons, hg, ih]
    | some n => simp [List.filterMap_cons, hg, ih, node_serialize_roundtrip]

/-- Key lookup in the per-id decoded list: an id with a live node resolves to
the image of that node under the given transformation. -/
theorem lookupA_per_id (s : State) (F : NodeId → Node → Node) :
    ∀ (ids : List NodeId) (i : NodeId) (n : Node), i ∈ ids → s.getNode i = some n →
      lookupA i (ids.filterMap fun k => (s.getNode k).map fun m => (k, F k m))
        = some (F i n) := by
  intro ids
  induction ids with
  | nil => intro i n hmem; exact absurd hmem (List.not_mem_nil _)
  | cons k rest ih =>
    intro i n hmem hg
    by_cases hk : i = k
    · subst hk
      rw [List.filterMap_cons, hg]
      show lookupA i ((i, F i n) :: _) = some (F i n)
      show (if i = i then some (F i n) else _) = some (F i n)
      rw [if_pos rfl]
    · have hmem' : i ∈ rest := by
        rcases List.mem_cons.mp hmem with h | h
        · exact absurd h hk
        · exact h
      rw [List.filterMap_cons]
      cases hgk : s.getNode k with
      | none => exact ih i n hmem' hg
      | some m =>
        show (if k = i then some (k, F k m).2 else _) = some (F i n)
        rw [if_neg (fun hh => hk hh.symm)]
        exact ih i n hmem' hg

/-- The decoded list's keys are exactly the serialized ids, provided every id
resolves to a live node. -/
theorem decoded_keys (s : State) (F : NodeId → Node → Node) :
    ∀ ids : List NodeId, (∀ i ∈ ids, (s.getNode i).isSome) →
      (ids.filterMap fun k => (s.getNode k).map fun m => (k, F k m)).map Prod.fst = ids := by
  intro ids
  induction ids with
  | nil => intro _; rfl
  | cons k rest ih =>
    intro hs
    rw [List.filterMap_cons]
    cases hgk : s.getNode k with
    | none =>
      have := hs k (List.mem_cons_self k rest)
      rw [hgk] at this
      exact absurd this (by simp)
    | some m =>
      show (k, F k m).1 :: (rest.filterMap _).map Prod.fst = k :: rest
      rw [ih (fun i hi => hs i (List.mem_cons_of_mem k hi))]

/-- Keys absent from the serialized id list do not resolve in the decoded
list. -/
theorem lookupA_per_id_none (s : State) (F : NodeId → Node → Node)
    (ids : List NodeId) (hs : ∀ i ∈ ids, (s.getNode i).isSome)
    (k : NodeId) (hk : k ∉ ids) :
    lookupA k (ids.filterMap fun j => (s.getNode j).map fun m => (j, F j m)) = none := by
  apply (lookupA_eq_none_iff _ _).mpr
  unfold keysA
  rw [decoded_keys s F ids hs]
  exact hk

/-- Membership in the serialized relationship list. -/
theorem mem_wsRelationships (s : State) :
    ∀ (ids : List NodeId) (p c : NodeId),
      (p, c) ∈ wsRelationships s ids
        ↔ ∃ np, p ∈ ids ∧ s.getNode p = some np ∧ c ∈ np.children := by
  intro ids
  induction ids with
  | nil =>
    intro p c
    simp [wsRelationships]
  | cons i rest ih =>
    intro p c
    unfold wsRelationships
    rw [List.mem_append, ih]
    constructor
    · intro h
      rcases h with h | ⟨np, hmem, hg, hc⟩
      · cases hgi : s.getNode i with
        | none => rw [hgi] at h; exact absurd h (List.not_mem_nil _)
        | some n =>
          rw [hgi] at h
          rcases List.mem_map.mp h with ⟨c0, hc0, heq⟩
          cases heq
          exact ⟨n, List.mem_cons_self _ _, hgi, hc0⟩
      · exact ⟨np, List.mem_cons_of_mem _ hmem, hg, hc⟩
    · intro ⟨np, hmem, hg, hc⟩
      rcases List.mem_cons.mp hmem with h | h
      · subst h
        left
        rw [hg]
        exact List.mem_map.mpr ⟨c, hc, rfl⟩
      · right
        exact ⟨np, h, hg, hc⟩

/-- Membership through the duplicate-skipping append of the edge rebuild. -/
theorem mem_condAppend (l : List NodeId) (ci c : NodeId) :
    (c ∈ (if ci ∈ l then l else l ++ [ci])) ↔ (c ∈ l ∨ c = ci) := by
  by_cases h : ci ∈ l
  · rw [if_pos h]
    constructor
    · exact Or.inl
    · intro hc
      rcases hc with hc | hc
      · exact hc
      · rw [hc]; exact h
  · rw [if_neg h]
    rw [List.mem_append]
    simp

/-- The parent-side conditional append preserves everything except
`parents`. -/
theorem rebuild_parentUpd_preserves (pi : NodeId) (n : Node) :
    ((if pi ∈ n.parents then n
      else { n with parents := n.parents ++ [pi] }) : Node).id = n.id ∧
    ((if pi ∈ n.parents then n
      else { n with parents := n.parents ++ [pi] }) : Node).name = n.name ∧
    ((if pi ∈ n.parents then n
      else { n with parents := n.parents ++ [pi] }) : Node).data = n.data ∧
    ((if pi ∈ n.parents then n
      else { n with parents := n.parents ++ [pi] }) : Node).operation = n.operation ∧
    ((if pi ∈ n.parents then n
      else { n with parents := n.parents ++ [pi] }) : Node).children = n.children := by
  by_cases h : pi ∈ n.parents
  · rw [if_pos h]
    exact ⟨rfl, rfl, rfl, rfl, rfl⟩
  · rw [if_neg h]
    exact ⟨rfl, rfl, rfl, rfl, rfl⟩

/-- The child-side conditional append preserves scalar fields and adds
exactly the one id to `children` (modulo duplicates). -/
theorem rebuild_childUpd_preserves (ci : NodeId) (n : Node) :
    ((if ci ∈ n.children then n
      else { n with children := n.children ++ [ci] }) : Node).id = n.id ∧
    ((if ci ∈ n.children then n
      else { n with children := n.children ++ [ci] }) : Node).name = n.name ∧
    ((if ci ∈ n.children then n
      else { n with children := n.children ++ [ci] }) : Node).data = n.data ∧
    ((if ci ∈ n.children then n
      else { n with children := n.children ++ [ci] }) : Node).operation = n.operation ∧
    (∀ c, c ∈ ((if ci ∈ n.children then n
      else { n with children := n.children ++ [ci] }) : Node).children
      ↔ c ∈ n.children ∨ c = ci) := by
  by_cases h : ci ∈ n.children
  · rw [if_pos h]
    refine ⟨rfl, rfl, rfl, rfl, fun c => ?_⟩
    constructor
    · exact Or.inl
    · rintro (hc | hc)
      · exact hc
      · rw [hc]; exact h
  · rw [if_neg h]
    refine ⟨rfl, rfl, rfl, rfl, fun c => ?_⟩
    show c ∈ n.children ++ [ci] ↔ _
    rw [List.mem_append]
    simp

/-- Effect of processing one resolved relationship pair on the heap entry at
an arbitrary key. -/
theorem rebuild_step_lookup (pi ci x : NodeId) (h : List (NodeId × Node)) (nx : Node)
    (hx : lookupA x h = some nx) :
    ∃ nx₁, lookupA x
        (updA ci (fun n => if pi ∈ n.parents then n
                           else { n with parents := n.parents ++ [pi] })
          (updA pi (fun n => if ci ∈ n.children then n
                             else { n with children := n.children ++ [ci] }) h)) = some nx₁ ∧
      nx₁.id = nx.id ∧ nx₁.name = nx.name ∧ nx₁.data = nx.data ∧
      nx₁.operation = nx.operation ∧
      (∀ c, c ∈ nx₁.children ↔ c ∈ nx.children ∨ (x = pi ∧ c = ci)) := by
  rw [lookupA_updA, lookupA_updA]
  by_cases hxc : x = ci
  · rw [if_pos hxc]
    by_cases hxp : x = pi
    · rw [if_pos hxp, hx]
      refine ⟨_, rfl, ?_, ?_, ?_, ?_, ?_⟩
      · rw [(rebuild_parentUpd_preserves pi _).1, (rebuild_childUpd_preserves ci nx).1]
      · rw [(rebuild_parentUpd_preserves pi _).2.1, (rebuild_childUpd_preserves ci nx).2.1]
      · rw [(rebuild_parentUpd_preserves pi _).2.2.1, (rebuild_childUpd_preserves ci nx).2.2.1]
      · rw [(rebuild_parentUpd_preserves pi _).2.2.2.1,
          (rebuild_childUpd_preserves ci nx).2.2.2.1]
      · intro c
        rw [(rebuild_parentUpd_preserves pi _).2.2.2.2]
        rw [(rebuild_childUpd_preserves ci nx).2.2.2.2 c]
        constructor
        · rintro (hc | hc)
          · exact Or.inl hc
          · exact Or.inr ⟨hxp, hc⟩
        · rintro (hc | ⟨_, hc⟩)
          · exact Or.inl hc
          · exact Or.inr hc
    · rw [if_neg hxp, hx]
      refine ⟨_, rfl, ?_, ?_, ?_, ?_, ?_⟩
      · exact (rebuild_parentUpd_preserves pi nx).1
      · exact (rebuild_parentUpd_preserves pi nx).2.1
      · exact (rebuild_parentUpd_preserves pi nx).2.2.1
      · exact (rebuild_parentUpd_preserves pi nx).2.2.2.1
      · intro c
        rw [(rebuild_parentUpd_preserves pi nx).2.2.2.2]
        constructor
        · exact Or.inl
        · rintro (hc | ⟨hp, _⟩)
          · exact hc
          · exact absurd hp hxp
  · rw [if_neg hxc]
    by_cases hxp : x = pi
    · rw [if_pos hxp, hx]
      refine ⟨_, rfl, ?_, ?_, ?_, ?_, ?_⟩
      · exact (rebuild_childUpd_preserves ci nx).1
      · exact (rebuild_childUpd_preserves ci nx).2.1
      · exact (rebuild_childUpd_preserves ci nx).2.2.1
      · exact (rebuild_childUpd_preserves ci nx).2.2.2.1
      · intro c
        rw [(rebuild_childUpd_preserves ci nx).2.2.2.2 c]
        constructor
        · rintro (hc | hc)
          · exact Or.inl hc
          · exact Or.inr ⟨hxp, hc⟩
        · rintro (hc | ⟨_, hc⟩)
          · exact Or.inl hc
          · exact Or.inr hc
    · rw [if_neg hxp, hx]
      refine ⟨nx, rfl, rfl, rfl, rfl, rfl, ?_⟩
      intro c
      constructor
      · exact Or.inl
      · rintro (hc | ⟨hp, _⟩)
        · exact hc
        · exact absurd hp hxp

/-- Walking the recorded relationship list (workspace.py:342-354) rewires
exactly the recorded pairs whose endpoints resolve in the decoded node map:
each surviving node keeps its id, name, data and operation, and its final
`children` list contains precisely its initial children plus the resolved
recorded edges out of it. -/
theorem rebuild_foldl_lookup (D : List (NodeId × Node)) :
    ∀ (R : List (NodeId × NodeId)) (h : List (NodeId × Node)) (x : NodeId) (nx : Node),
      lookupA x h = some nx →
      ∃ nx',
        lookupA x (R.foldl
          (fun h pc =>
            match (lookupA pc.1 D).map Node.id, (lookupA pc.2 D).map Node.id with
            | some pi, some ci =>
              updA ci (fun n => if pi ∈ n.parents then n
                                else { n with parents := n.parents ++ [pi] })
                (updA pi (fun n => if ci ∈ n.children then n
                                   else { n with children := n.children ++ [ci] }) h)
            | _, _ => h) h) = some nx' ∧
        nx'.id = nx.id ∧ nx'.name = nx.name ∧ nx'.data = nx.data ∧
        nx'.operation = nx.operation ∧
        (∀ c, c ∈ nx'.children ↔ c ∈ nx.children ∨
          ∃ pc, pc ∈ R ∧ (lookupA pc.1 D).map Node.id = some x ∧
            (lookupA pc.2 D).map Node.id = some c) := by
  intro R
  induction R with
  | nil =>
    intro h x nx hx
    refine ⟨nx, hx, rfl, rfl, rfl, rfl, ?_⟩
    intro c
    simp
  | cons pc R ih =>
    intro h x nx hx
    rw [List.foldl_cons]
    cases hres1 : (lookupA pc.1 D).map Node.id with
    | none =>
      simp only [hres1]
      rcases ih h x nx hx with ⟨nx', hl, h1, h2, h3, h4, h5⟩
      refine ⟨nx', hl, h1, h2, h3, h4, ?_⟩
      intro c
      rw [h5 c]
      constructor
      · rintro (hc | ⟨pc', hpc', ha, hb⟩)
        · exact Or.inl hc
        · exact Or.inr ⟨pc', List.mem_cons_of_mem _ hpc', ha, hb⟩
      · rintro (hc | ⟨pc', hpc', ha, hb⟩)
        · exact Or.inl hc
        · rcases List.mem_cons.mp hpc' with he | he
          · subst he
            rw [hres1] at ha
            exact absurd ha (by simp)
          · exact Or.inr ⟨pc', he, ha, hb⟩
    | some pi =>
      cases hres2 : (lookupA pc.2 D).map Node.id with
      | none =>
        simp only [hres1, hres2]
        rcases ih h x nx hx with ⟨nx', hl, h1, h2, h3, h4, h5⟩
        refine ⟨nx', hl, h1, h2, h3, h4, ?_⟩
        intro c
        rw [h5 c]
        constructor
        · rintro (hc | ⟨pc', hpc', ha, hb⟩)
          · exact Or.inl hc
          · exact Or.inr ⟨pc', List.mem_cons_of_mem _ hpc', ha, hb⟩
        · rintro (hc | ⟨pc', hpc', ha, hb⟩)
          · exact Or.inl hc
          · rcases List.mem_cons.mp hpc' with he | he
            · subst he
              rw [hres2] at hb
              exact absurd hb (by simp)
            · exact Or.inr ⟨pc', he, ha, hb⟩
      | some ci =>
        simp only [hres1, hres2]
        rcases rebuild_step_lookup pi ci x h nx hx with ⟨nx₁, hl1, hid1, hnm1, hdt1, hop1, hch1⟩
        rcases ih _ x nx₁ hl1 with ⟨nx', hl', h1, h2, h3, h4, h5⟩
        refine ⟨nx', hl', h1.trans hid1, h2.trans hnm1, h3.trans hdt1, h4.trans hop1, ?_⟩
        intro c
        rw [h5 c, hch1 c]
        constructor
        · rintro ((hc | ⟨hxp, hcc⟩) | ⟨pc', hpc', ha, hb⟩)
          · exact Or.inl hc
          · refine Or.inr ⟨pc, List.mem_cons_self _ _, ?_, ?_⟩
            · rw [hres1, hxp]
            · rw [hres2, hcc]
          · exact Or.inr ⟨pc', List.mem_cons_of_mem _ hpc', ha, hb⟩
        · rintro (hc | ⟨pc', hpc', ha, hb⟩)
          · exact Or.inl (Or.inl hc)
          · rcases List.mem_cons.mp hpc' with he | he
            · subst he
              rw [hres1] at ha
              rw [hres2] at hb
              exact Or.inl (Or.inr ⟨(Option.some_inj.mp ha).symm, (Option.some_inj.mp hb).symm⟩)
            · exact Or.inr ⟨pc', he, ha, hb⟩

/-- Re-keying the decoded list by each node's metadata id is the identity
when metadata ids agree with the registry keys. -/
theorem heap0_eq (s : State) (tt : WsId) :
    ∀ ids : List NodeId, (∀ i ∈ ids, (s.getNode i).map Node.id = some i) →
      ((ids.filterMap fun k => (s.getNode k).map fun m => (k, resetNode tt m)).map
        fun kv => (kv.2.id, kv.2))
      = ids.filterMap fun k => (s.getNode k).map fun m => (k, resetNode tt m) := by
  intro ids
  induction ids with
  | nil => intro _; rfl
  | cons k rest ih =>
    intro hid
    rw [List.filterMap_cons]
    cases hgk : s.getNode k with
    | none => exact ih (fun i hi => hid i (List.mem_cons_of_mem k hi))
    | some m =>
      have hk := hid k (List.mem_cons_self k rest)
      rw [hgk] at hk
      have hmk : m.id = k := Option.some_inj.mp hk
      show ((resetNode tt m).id, resetNode tt m) :: _ = (k, resetNode tt m) :: _
      rw [show (resetNode tt m).id = k from hmk]
      rw [ih (fun i hi => hid i (List.mem_cons_of_mem k hi))]

/-- Claim C4: for a workspace whose nodes are the four supported wrapper
kinds (all of `PlData`), `deserialize(serialize(W))` rebuilds the same node
id list (hence the same count), and per node the same name, operation, data —
hence the same laziness flag and content — and the same set of
(parent, child) edge pairs over the workspace's nodes (list order inside
`parents`/`children` and duplicate edges are not preserved; the edge SET is).
The hypothesis `hNid` states that every registered id resolves to a live node
carrying that id, which `add_node`/`Node.__init__` guarantee. -/
theorem serialize_roundtrip (s : State) (target : WsId) (w : Workspace)
    (doc : WorkspaceDoc) (hw : s.getWs target = some w)
    (hNid : ∀ i ∈ w.nodeIds, (s.getNode i).map Node.id = some i)
    (hdoc : Workspace.serialize s target = some doc) :
    (Workspace.deserialize doc).ws.nodeIds = w.nodeIds ∧
    (∀ i n, i ∈ w.nodeIds → s.getNode i = some n →
      ∃ n', lookupA i (Workspace.deserialize doc).heap = some n' ∧
        n'.id = n.id ∧ n'.name = n.name ∧ n'.data = n.data ∧
        n'.operation = n.operation ∧ n'.is_lazy = n.is_lazy) ∧
    (∀ p c, p ∈ w.nodeIds → c ∈ w.nodeIds →
      ((∃ np, s.getNode p = some np ∧ c ∈ np.children)
        ↔ (∃ np', lookupA p (Workspace.deserialize doc).heap = some np' ∧
            c ∈ np'.children))) := by
  unfold Workspace.serialize at hdoc
  rw [hw] at hdoc
  simp only [Option.map_some'] at hdoc
  have hdoc' : doc =
      { wid := w.id, wname := w.name,
        nodes := w.nodeIds.filterMap fun i => (s.getNode i).map fun n => (i, Node.serialize n),
        relationships := wsRelationships s w.nodeIds } := (Option.some_inj.mp hdoc).symm
  subst hdoc'
  have hsome : ∀ i ∈ w.nodeIds, (s.getNode i).isSome := by
    intro i hi
    rcases Option.map_eq_some'.mp (hNid i hi) with ⟨n, hn, _⟩
    rw [hn]
    rfl
  have hdec := decoded_eq s w.id w.nodeIds
  have hheap0 := heap0_eq s w.id w.nodeIds hNid
  -- resolver facts over the literal decoded list
  have hres2 : ∀ k nk, k ∈ w.nodeIds → s.getNode k = some nk →
      (lookupA k ((w.nodeIds.filterMap fun i =>
          (s.getNode i).map fun n => (i, Node.serialize n)).filterMap
        fun kv => (Node.deserialize kv.2 w.id).map fun n2 => (kv.1, n2))).map Node.id
      = some k := by
    intro k nk hk hnk
    rw [hdec, lookupA_per_id s _ w.nodeIds k nk hk hnk]
    have hk2 := hNid k hk
    rw [hnk] at hk2
    exact hk2
  have hres1 : ∀ k j, (lookupA k ((w.nodeIds.filterMap fun i =>
        (s.getNode i).map fun n => (i, Node.serialize n)).filterMap
      fun kv => (Node.deserialize kv.2 w.id).map fun n2 => (kv.1, n2))).map Node.id
      = some j → k ∈ w.nodeIds ∧ j = k := by
    intro k j hkj
    by_cases hk : k ∈ w.nodeIds
    · refine ⟨hk, ?_⟩
      obtain ⟨nk, hnk⟩ := Option.isSome_iff_exists.mp (hsome k hk)
      rw [hres2 k nk hk hnk] at hkj
      exact (Option.some_inj.mp hkj).symm
    · rw [hdec, lookupA_per_id_none s _ w.nodeIds hsome k hk] at hkj
      exact absurd hkj (by simp)
  refine ⟨?_, ?_, ?_⟩
  · -- (1) identical id list
    show (((w.nodeIds.filterMap fun i =>
        (s.getNode i).map fun n => (i, Node.serialize n)).filterMap
          fun kv => (Node.deserialize kv.2 w.id).map fun n2 => (kv.1, n2)).map
        fun kv => (kv.2.id, kv.2)).map Prod.fst = w.nodeIds
    rw [hdec, hheap0]
    exact decoded_keys s _ w.nodeIds hsome
  · -- (2) per-node payload
    intro i n hi hg
    have hx0 : lookupA i (((w.nodeIds.filterMap fun i =>
        (s.getNode i).map fun n => (i, Node.serialize n)).filterMap
          fun kv => (Node.deserialize kv.2 w.id).map fun n2 => (kv.1, n2)).map
        fun kv => (kv.2.id, kv.2)) = some (resetNode w.id n) := by
      rw [hdec, hheap0]
      exact lookupA_per_id s _ w.nodeIds i n hi hg
    rcases rebuild_foldl_lookup _ (wsRelationships s w.nodeIds) _ i (resetNode w.id n) hx0
      with ⟨n', hl', hid, hnm, hdt, hop, _⟩
    refine ⟨n', hl', hid, hnm, hdt, hop, ?_⟩
    show n'.data.is_lazy = n.data.is_lazy
    rw [show n'.data = n.data from hdt]
  · -- (3) edge-pair set
    intro p c hp hc
    obtain ⟨np0, hnp0⟩ := Option.isSome_iff_exists.mp (hsome p hp)
    obtain ⟨nc0, hnc0⟩ := Option.isSome_iff_exists.mp (hsome c hc)
    have hx0 : lookupA p (((w.nodeIds.filterMap fun i =>
        (s.getNode i).map fun n => (i, Node.serialize n)).filterMap
          fun kv => (Node.deserialize kv.2 w.id).map fun n2 => (kv.1, n2)).map
        fun kv => (kv.2.id, kv.2)) = some (resetNode w.id np0) := by
      rw [hdec, hheap0]
      exact lookupA_per_id s _ w.nodeIds p np0 hp hnp0
    rcases rebuild_foldl_lookup _ (wsRelationships s w.nodeIds) _ p (resetNode w.id np0) hx0
      with ⟨n', hl', _, _, _, _, hch⟩
    constructor
    · rintro ⟨np, hnp, hcin⟩
      refine ⟨n', hl', ?_⟩
      rw [hch c]
      refine Or.inr ⟨(p, c), ?_, ?_, ?_⟩
      · exact (mem_wsRelationships s w.nodeIds p c).mpr ⟨np, hp, hnp, hcin⟩
      · exact hres2 p np0 hp hnp0
      · exact hres2 c nc0 hc hnc0
    · rintro ⟨np', hnp', hcin⟩
      have hsame : np' = n' := Option.some_inj.mp (hnp'.symm.trans hl')
      subst hsame
      rw [hch c] at hcin
      rcases hcin with hcin | ⟨pc, hpcR, ha, hb⟩
      · exact absurd hcin (List.not_mem_nil c)
      · have h1 := hres1 pc.1 p ha
        have h2 := hres1 pc.2 c hb
        rcases (mem_wsRelationships s w.nodeIds pc.1 pc.2).mp (by
            rw [show ((pc.1, pc.2) : NodeId × NodeId) = pc from rfl]
            exact hpcR)
          with ⟨np, hmem2, hgp, hcp⟩
        refine ⟨np, ?_, ?_⟩
        · rw [h1.2]
          exact hgp
        · rw [h2.2]
          exact hcp

/-- Witness for C4: round trip of `sampleAB` (workspace 0; lazy nodes 10 and
11 with the edge 10 → 11). -/
theorem serialize_roundtrip_witness :
    (Workspace.deserialize
        ⟨0, "w",
         [(10, ⟨10, "A", none, "LazyFrame", true, "polars_LazyFrame", .dict [[1]]⟩),
          (11, ⟨11, "B", none, "LazyFrame", true, "polars_LazyFrame", .dict [[1]]⟩)],
         [(10, 11)]⟩).ws.nodeIds = [10, 11] ∧
    (∃ n', lookupA 11 (Workspace.deserialize
        ⟨0, "w",
         [(10, ⟨10, "A", none, "LazyFrame", true, "polars_LazyFrame", .dict [[1]]⟩),
          (11, ⟨11, "B", none, "LazyFrame", true, "polars_LazyFrame", .dict [[1]]⟩)],
         [(10, 11)]⟩).heap = some n' ∧
      n'.id = 11 ∧ n'.name = "B" ∧ n'.data = .lazyFrame [[1]] ∧
      n'.operation = none ∧ n'.is_lazy = true) ∧
    (∃ np', lookupA 10 (Workspace.deserialize
        ⟨0, "w",
         [(10, ⟨10, "A", none, "LazyFrame", true, "polars_LazyFrame", .dict [[1]]⟩),
          (11, ⟨11, "B", none, "LazyFrame", true, "polars_LazyFrame", .dict [[1]]⟩)],
         [(10, 11)]⟩).heap = some np' ∧ (11 : NodeId) ∈ np'.children) := by
  obtain ⟨h1, h2, h3⟩ := serialize_roundtrip sampleAB 0
    { id := 0, name := "w", nodeIds := [10, 11] }
    ⟨0, "w",
     [(10, ⟨10, "A", none, "LazyFrame", true, "polars_LazyFrame", .dict [[1]]⟩),
      (11, ⟨11, "B", none, "LazyFrame", true, "polars_LazyFrame", .dict [[1]]⟩)],
     [(10, 11)]⟩
    (by decide) (by decide) (by decide)
  refine ⟨h1, ?_, ?_⟩
  · obtain ⟨n', hl, hid, hnm, hdt, hop, hlz⟩ := h2 11
      { id := 11, name := "B", data := .lazyFrame [[1]], parents := [10], children := [],
        workspace := 0, operation := none }
      (by decide) (by decide)
    exact ⟨n', hl, hid, hnm, hdt, hop, hlz⟩
  · exact (h3 10 11 (by decide) (by decide)).mp
      ⟨{ id := 10, name := "A", data := .lazyFrame [[1]], parents := [], children := [11],
         workspace := 0, operation := none }, by decide, by decide⟩

/-! ## Claim C6 -/

theorem mem_keysA_of_lookupA {α : Type} {k : Nat} {v : α} {l : List (Nat × α)}
    (h : lookupA k l = some v) : k ∈ keysA l := by
  have := lookupA_mem h
  exact List.mem_map.mpr ⟨(k, v), this, rfl⟩

theorem lookupA_isSome_of_mem {α : Type} {k : Nat} {l : List (Nat × α)}
    (h : k ∈ keysA l) : ∃ v, lookupA k l = some v := by
  cases hl : lookupA k l with
  | none => exact absurd ((lookupA_eq_none_iff k l).mp hl) (by simpa using h)
  | some v => exact ⟨v, rfl⟩

theorem lookupA_of_mem_nodup {α : Type} {k : Nat} {v : α} {l : List (Nat × α)}
    (hmem : (k, v) ∈ l) (hnd : (keysA l).Nodup) : lookupA k l = some v := by
  induction l with
  | nil => cases hmem
  | cons kv rest ih =>
    rcases List.mem_cons.mp hmem with he | hmem'
    · rw [← he]
      show (if k = k then some v else lookupA k rest) = some v
      rw [if_pos rfl]
    · by_cases hk : kv.1 = k
      · exfalso
        have hmemk : k ∈ keysA rest := List.mem_map.mpr ⟨(k, v), hmem', rfl⟩
        have hhd : kv.1 ∉ keysA rest := (List.nodup_cons.mp hnd).1
        rw [hk] at hhd
        exact hhd hmemk
      · show (if kv.1 = k then some kv.2 else lookupA k rest) = some v
        rw [if_neg hk]
        exact ih hmem' (List.nodup_cons.mp hnd).2

theorem mem_updA {α : Type} {kv' : Nat × α} {k : Nat} {f : α → α} {l : List (Nat × α)} :
    kv' ∈ updA k f l ↔
      ∃ kv ∈ l, kv' = if kv.1 = k then (kv.1, f kv.2) else kv := by
  unfold updA
  rw [List.mem_map]
  constructor
  · rintro ⟨kv, hkv, he⟩
    exact ⟨kv, hkv, he.symm⟩
  · rintro ⟨kv, hkv, he⟩
    exact ⟨kv, hkv, he.symm⟩

theorem filter_length_mono {l : List Nat} {p q : Nat → Bool}
    (himp : ∀ a, p a = true → q a = true) :
    (l.filter p).length ≤ (l.filter q).length := by
  induction l with
  | nil => exact Nat.le_refl _
  | cons a rest ih =>
    rw [List.filter_cons, List.filter_cons]
    cases hpa : p a
    · cases hqa : q a
      · simpa using ih
      · simp only [List.length_cons]
        exact Nat.le_succ_of_le ih
    · rw [himp a hpa]
      simpa using Nat.succ_le_succ ih

theorem filter_length_lt {l : List Nat} {p q : Nat → Bool}
    (himp : ∀ a, p a = true → q a = true) (c : Nat) (hc : c ∈ l)
    (hpc : p c = false) (hqc : q c = true) :
    (l.filter p).length < (l.filter q).length := by
  induction l with
  | nil => cases hc
  | cons a rest ih =>
    rw [List.filter_cons, List.filter_cons]
    rcases List.mem_cons.mp hc with he | hc'
    · rw [← he, hpc, hqc]
      simpa using Nat.lt_succ_of_le (filter_length_mono himp)
    · cases hpa : p a
      · cases hqa : q a
        · simpa using ih hc'
        · simp only [List.length_cons]
          exact Nat.lt_succ_of_lt (ih hc')
      · rw [himp a hpa]
        simpa using Nat.succ_lt_succ (ih hc')

theorem getWs_of_mem_wsMembers {s : State} {k : WsId} {i : NodeId}
    (h : i ∈ s.wsMembers k) :
    ∃ w, s.getWs k = some w ∧ s.wsMembers k = w.nodeIds := by
  cases hw : s.getWs k with
  | none =>
    exfalso
    have he : s.wsMembers k = [] := by unfold State.wsMembers; rw [hw]
    rw [he] at h
    cases h
  | some w =>
    refine ⟨w, rfl, ?_⟩
    unfold State.wsMembers
    rw [hw]

theorem wsMembers_of_getWs {s : State} {k : WsId} {w : Workspace}
    (hw : s.getWs k = some w) : s.wsMembers k = w.nodeIds := by
  unfold State.wsMembers
  rw [hw]

theorem coherent_nodeWorkspace {s : State} (hco : s.Coherent) {k : WsId} {i : NodeId}
    (h : i ∈ s.wsMembers k) : s.nodeWorkspace i = some k := by
  obtain ⟨w, hw, hmem⟩ := getWs_of_mem_wsMembers h
  exact (hco.2 (k, w) (lookupA_mem hw)).2 i (hmem ▸ h)

theorem getNode_of_nodeWorkspace {s : State} {i : NodeId} {k : WsId}
    (h : s.nodeWorkspace i = some k) :
    ∃ n, s.getNode i = some n ∧ n.workspace = k := by
  unfold State.nodeWorkspace at h
  cases hn : s.getNode i with
  | none => rw [hn] at h; cases h
  | some n =>
    rw [hn] at h
    exact ⟨n, rfl, by simpa using h⟩

theorem nodeWorkspace_of_getNode {s : State} {i : NodeId} {n : Node}
    (h : s.getNode i = some n) : s.nodeWorkspace i = some n.workspace := by
  unfold State.nodeWorkspace
  rw [h]
  rfl

theorem coherent_iff_lookup {s : State} (hnd : (keysA s.wss).Nodup) :
    s.Coherent ↔ ∀ k w', s.getWs k = some w' → w'.nodeIds.Nodup ∧
      ∀ i ∈ w'.nodeIds, s.nodeWorkspace i = some k := by
  constructor
  · intro hco k w' hw'
    exact hco.2 (k, w') (lookupA_mem hw')
  · intro h
    refine ⟨hnd, ?_⟩
    intro kw hkw
    exact h kw.1 kw.2 (lookupA_of_mem_nodup (by simpa using hkw) hnd)

theorem moveStep_refl (target : WsId) (s : State) : MoveStep target s s := by
  refine ⟨?_, ?_, ?_, ?_, ?_⟩
  · intro x n0 h
    exact ⟨n0, h, rfl, rfl, rfl, rfl, rfl, rfl, Or.inl rfl⟩
  · intro x h; exact h
  · intro i h; exact h
  · intro k _ i h; exact h
  · intro x h1 h2; exact absurd h1 h2

theorem moveStep_trans {target : WsId} {s t u : State}
    (h1 : MoveStep target s t) (h2 : MoveStep target t u) : MoveStep target s u := by
  obtain ⟨a1, a2, a3, a4, a5⟩ := h1
  obtain ⟨b1, b2, b3, b4, b5⟩ := h2
  refine ⟨?_, ?_, ?_, ?_, ?_⟩
  · intro x n0 h
    obtain ⟨n1, hn1, e1, e2, e3, e4, e5, e6, hw1⟩ := a1 x n0 h
    obtain ⟨n2, hn2, f1, f2, f3, f4, f5, f6, hw2⟩ := b1 x n1 hn1
    refine ⟨n2, hn2, f1.trans e1, f2.trans e2, f3.trans e3, f4.trans e4,
      f5.trans e5, f6.trans e6, ?_⟩
    rcases hw1 with hw1 | ⟨hw1, hm1, hm1'⟩
    · rcases hw2 with hw2 | ⟨hw2, hm2, hm2'⟩
      · exact Or.inl (hw2.trans hw1)
      · exact Or.inr ⟨hw2, hm2, fun hx => hm2' (a3 x hx)⟩
    · rcases hw2 with hw2 | ⟨hw2, hm2, hm2'⟩
      · exact Or.inr ⟨hw2.trans hw1, b3 x hm1, hm1'⟩
      · exact Or.inr ⟨hw2, hm2, hm1'⟩
  · intro x h; exact b2 x (a2 x h)
  · intro i h; exact b3 i (a3 i h)
  · intro k hk i h; exact a4 k hk i (b4 k hk i h)
  · intro x hxu hxs
    by_cases hxt : x ∈ t.wsMembers target
    · obtain ⟨hw, hnot⟩ := a5 x hxt hxs
      obtain ⟨n1, hn1, hwn1⟩ := getNode_of_nodeWorkspace hw
      obtain ⟨n2, hn2, _, _, _, _, _, _, hw2⟩ := b1 x n1 hn1
      refine ⟨?_, ?_⟩
      · rcases hw2 with hw2 | ⟨hw2, _, _⟩
        · rw [nodeWorkspace_of_getNode hn2, hw2, hwn1]
        · rw [nodeWorkspace_of_getNode hn2, hw2]
      · intro k hk hxk
        exact hnot k hk (b4 k hk x hxk)
    · exact b5 x hxu hxt

theorem movedOk_refl {target : WsId} {s : State} (hco : s.Coherent) (hcl : s.Closed) :
    MovedOk target s s :=
  ⟨moveStep_refl target s, hco, hcl, rfl, Nat.le_refl _, fun _ => rfl,
    fun y hy hny => absurd hy hny⟩

theorem movedOk_trans {target : WsId} {s t u : State}
    (h1 : MovedOk target s t) (h2 : MovedOk target t u) : MovedOk target s u := by
  obtain ⟨m1, _, _, hk1, hf1, hch1, hc1⟩ := h1
  obtain ⟨m2, hco2, hcl2, hk2, hf2, hch2, hc2⟩ := h2
  refine ⟨moveStep_trans m1 m2, hco2, hcl2, hk2.trans hk1, Nat.le_trans hf2 hf1,
    fun y => (hch2 y).trans (hch1 y), ?_⟩
  intro y hyu hys z hz
  by_cases hyt : y ∈ t.wsMembers target
  · exact m2.2.2.1 z (hc1 y hyt hys z hz)
  · exact hc2 y hyu hyt z (by rw [hch1 y]; exact hz)

theorem freshReach_trans {s : State} {A : List NodeId} {x y z : NodeId}
    (h1 : FreshReach s A x y) (h2 : FreshReach s A y z) : FreshReach s A x z := by
  induction h2 with
  | refl => exact h1
  | step _ hc hn ih => exact FreshReach.step ih hc hn

theorem freshReach_mono {s s' : State} {A A' : List NodeId} {x y : NodeId}
    (hch : ∀ v, s'.childrenOf v = s.childrenOf v)
    (hA : ∀ z, z ∉ A' → z ∉ A)
    (h : FreshReach s' A' x y) : FreshReach s A x y := by
  induction h with
  | refl => exact FreshReach.refl _
  | step _ hc hn ih => exact FreshReach.step ih (by rw [← hch _]; exact hc) (hA _ hn)

theorem wsMembers_eq_of_getWs {s t : State} {k : WsId}
    (h : s.getWs k = t.getWs k) : s.wsMembers k = t.wsMembers k := by
  unfold State.wsMembers
  rw [h]

theorem detachPrev_heap (s : State) (target : WsId) (c : NodeId) :
    (detachPrev s target c).heap = s.heap := by
  cases hg : s.getNode c with
  | none => simp only [detachPrev, hg]
  | some n =>
    simp only [detachPrev, hg]
    by_cases h : n.workspace ≠ target
    · rw [if_pos h]; rfl
    · rw [if_neg h]

theorem detachPrev_getNode (s : State) (target : WsId) (c x : NodeId) :
    (detachPrev s target c).getNode x = s.getNode x := by
  show lookupA x (detachPrev s target c).heap = lookupA x s.heap
  rw [detachPrev_heap]

theorem detachPrev_keysA_wss (s : State) (target : WsId) (c : NodeId) :
    keysA (detachPrev s target c).wss = keysA s.wss := by
  cases hg : s.getNode c with
  | none => simp only [detachPrev, hg]
  | some n =>
    simp only [detachPrev, hg]
    by_cases h : n.workspace ≠ target
    · rw [if_pos h]
      show keysA (updA n.workspace
          (fun w => { w with nodeIds := w.nodeIds.erase c }) s.wss) = keysA s.wss
      exact keysA_updA n.workspace _ s.wss
    · rw [if_neg h]

theorem detachPrev_getWs_target (s : State) (target : WsId) (c : NodeId) :
    (detachPrev s target c).getWs target = s.getWs target := by
  cases hg : s.getNode c with
  | none => simp only [detachPrev, hg]
  | some n =>
    simp only [detachPrev, hg]
    by_cases h : n.workspace ≠ target
    · rw [if_pos h, getWs_updWs]
      rw [if_neg (fun hh => h hh.symm)]
    · rw [if_neg h]

theorem detachPrev_getWs_shape {s : State} {target : WsId} {c : NodeId} (k : WsId)
    {w' : Workspace} (h : (detachPrev s target c).getWs k = some w') :
    ∃ w0, s.getWs k = some w0 ∧
      (w'.nodeIds = w0.nodeIds ∨ w'.nodeIds = w0.nodeIds.erase c) := by
  cases hg : s.getNode c with
  | none =>
    simp only [detachPrev, hg] at h
    exact ⟨w', h, Or.inl rfl⟩
  | some n =>
    simp only [detachPrev, hg] at h
    by_cases hd : n.workspace ≠ target
    · rw [if_pos hd, getWs_updWs] at h
      by_cases hk : k = n.workspace
      · rw [if_pos hk] at h
        cases hg2 : s.getWs k with
        | none => rw [hg2] at h; cases h
        | some w0 =>
          rw [hg2] at h
          refine ⟨w0, rfl, Or.inr ?_⟩
          have he : ({ w0 with nodeIds := w0.nodeIds.erase c } : Workspace) = w' := by
            simpa using h
          rw [← he]
      · rw [if_neg hk] at h
        exact ⟨w', h, Or.inl rfl⟩
    · rw [if_neg hd] at h
      exact ⟨w', h, Or.inl rfl⟩

theorem detachPrev_mem_ne {s : State} {target : WsId} {c : NodeId} (hco : s.Coherent)
    {nc : Node} (hn : s.getNode c = some nc) {k : WsId} (hk : k ≠ target) {i : NodeId}
    (hi : i ∈ (detachPrev s target c).wsMembers k) :
    i ∈ s.wsMembers k ∧ i ≠ c := by
  have hcw : s.nodeWorkspace c = some nc.workspace := nodeWorkspace_of_getNode hn
  by_cases hd : nc.workspace ≠ target
  · have hs' : detachPrev s target c
        = s.updWs nc.workspace fun w => { w with nodeIds := w.nodeIds.erase c } := by
      simp only [detachPrev, hn]
      rw [if_pos hd]
    rw [hs'] at hi
    by_cases hkn : k = nc.workspace
    · cases hg2 : s.getWs k with
      | none =>
        exfalso
        have hnone : (s.updWs nc.workspace
            fun w => { w with nodeIds := w.nodeIds.erase c }).getWs k = none := by
          rw [getWs_updWs, if_pos hkn, hg2]
          rfl
        have hmemnil : (s.updWs nc.workspace
            fun w => { w with nodeIds := w.nodeIds.erase c }).wsMembers k = [] := by
          unfold State.wsMembers
          rw [hnone]
        rw [hmemnil] at hi
        cases hi
      | some wk =>
        have hgk : (s.updWs nc.workspace
            fun w => { w with nodeIds := w.nodeIds.erase c }).getWs k
            = some { wk with nodeIds := wk.nodeIds.erase c } := by
          rw [getWs_updWs, if_pos hkn, hg2]
          rfl
        rw [wsMembers_of_getWs hgk] at hi
        have hnd : wk.nodeIds.Nodup := (hco.2 (k, wk) (lookupA_mem hg2)).1
        have hie := hnd.mem_erase_iff.mp hi
        refine ⟨?_, hie.1⟩
        rw [wsMembers_of_getWs hg2]
        exact hie.2
    · have hgk : (s.updWs nc.workspace
          fun w => { w with nodeIds := w.nodeIds.erase c }).getWs k = s.getWs k := by
        rw [getWs_updWs, if_neg hkn]
      have hi' : i ∈ s.wsMembers k := by
        rw [← wsMembers_eq_of_getWs hgk]
        exact hi
      refine ⟨hi', ?_⟩
      intro he
      subst he
      have hck := coherent_nodeWorkspace hco hi'
      rw [hcw] at hck
      exact hkn (Option.some_inj.mp hck).symm
  · have hs' : detachPrev s target c = s := by
      simp only [detachPrev, hn]
      rw [if_neg hd]
    rw [hs'] at hi
    refine ⟨hi, ?_⟩
    intro he
    subst he
    have hck := coherent_nodeWorkspace hco hi
    rw [hcw] at hck
    rw [not_not] at hd
    exact hk ((Option.some_inj.mp hck).symm.trans hd)

theorem closed_of_heap_ws_upd {s t : State} {c : NodeId} {k : WsId}
    (hcl : s.Closed)
    (ht : t.heap = updA c (fun n => { n with workspace := k }) s.heap) : t.Closed := by
  unfold State.Closed
  intro kv hkv z hz
  rw [ht] at hkv
  have hkeys : keysA t.heap = keysA s.heap := by rw [ht]; exact keysA_updA ..
  rw [hkeys]
  obtain ⟨kv₀, hkv₀, he⟩ := mem_updA.mp hkv
  by_cases hc : kv₀.1 = c
  · rw [he, if_pos hc] at hz
    exact hcl kv₀ hkv₀ z hz
  · rw [he, if_neg hc] at hz
    exact hcl kv₀ hkv₀ z hz

/-- Effect of one "detach from previous workspace, then register here" step
(the body of `add_node` before the recursive child move, workspace.py:117-128,
and the per-child body of `move_children_recursive`, workspace.py:134-140) on
a coherent, closed state, for a live node not yet registered in the target. -/
theorem register_step {s : State} {target : WsId} {c : NodeId} {w : Workspace} {nc : Node}
    (hco : s.Coherent) (hcl : s.Closed)
    (hw : s.getWs target = some w) (hn : s.getNode c = some nc)
    (hnm : c ∉ s.wsMembers target) :
    (registerNode (detachPrev s target c) target c).getNode c
        = some { nc with workspace := target } ∧
    (∀ x, x ≠ c → (registerNode (detachPrev s target c) target c).getNode x = s.getNode x) ∧
    (registerNode (detachPrev s target c) target c).wsMembers target
        = s.wsMembers target ++ [c] ∧
    (∀ k, k ≠ target → ∀ i,
        i ∈ (registerNode (detachPrev s target c) target c).wsMembers k →
        i ∈ s.wsMembers k ∧ i ≠ c) ∧
    keysA (registerNode (detachPrev s target c) target c).heap = keysA s.heap ∧
    (registerNode (detachPrev s target c) target c).Coherent ∧
    (registerNode (detachPrev s target c) target c).Closed ∧
    freshCount target (registerNode (detachPrev s target c) target c)
        < freshCount target s ∧
    (∀ y, (registerNode (detachPrev s target c) target c).childrenOf y
        = s.childrenOf y) := by
  have hmemw : s.wsMembers target = w.nodeIds := wsMembers_of_getWs hw
  have hheap : (registerNode (detachPrev s target c) target c).heap
      = updA c (fun n => { n with workspace := target }) s.heap := by
    show updA c (fun n => { n with workspace := target }) (detachPrev s target c).heap
        = updA c (fun n => { n with workspace := target }) s.heap
    rw [detachPrev_heap]
  have hgc : ∀ x, (registerNode (detachPrev s target c) target c).getNode x
      = if x = c then (s.getNode x).map (fun n => { n with workspace := target })
        else s.getNode x := by
    intro x
    show lookupA x (registerNode (detachPrev s target c) target c).heap = _
    rw [hheap, lookupA_updA]
    rfl
  have hgcc : (registerNode (detachPrev s target c) target c).getNode c
      = some { nc with workspace := target } := by
    rw [hgc c, if_pos rfl, hn]
    rfl
  have hgco : ∀ x, x ≠ c →
      (registerNode (detachPrev s target c) target c).getNode x = s.getNode x := by
    intro x hx
    rw [hgc x, if_neg hx]
  have hgw : ∀ k, (registerNode (detachPrev s target c) target c).getWs k
      = if k = target
        then ((detachPrev s target c).getWs k).map
          (fun w => { w with nodeIds := w.nodeIds ++ [c] })
        else (detachPrev s target c).getWs k := by
    intro k
    show lookupA k (updA target (fun w => { w with nodeIds := w.nodeIds ++ [c] })
        (detachPrev s target c).wss) = _
    rw [lookupA_updA]
    rfl
  have hgwt : (registerNode (detachPrev s target c) target c).getWs target
      = some { w with nodeIds := w.nodeIds ++ [c] } := by
    rw [hgw target, if_pos rfl, detachPrev_getWs_target, hw]
    rfl
  have hmemt : (registerNode (detachPrev s target c) target c).wsMembers target
      = s.wsMembers target ++ [c] := by
    rw [wsMembers_of_getWs hgwt, hmemw]
  have hmemo : ∀ k, k ≠ target → ∀ i,
      i ∈ (registerNode (detachPrev s target c) target c).wsMembers k →
      i ∈ s.wsMembers k ∧ i ≠ c := by
    intro k hk i hi
    have hgk : (registerNode (detachPrev s target c) target c).getWs k
        = (detachPrev s target c).getWs k := by
      rw [hgw k, if_neg hk]
    rw [wsMembers_eq_of_getWs hgk] at hi
    exact detachPrev_mem_ne hco hn hk hi
  have hkeys : keysA (registerNode (detachPrev s target c) target c).heap
      = keysA s.heap := by
    rw [hheap]
    exact keysA_updA c _ s.heap
  have hnw : ∀ i, i ≠ c →
      (registerNode (detachPrev s target c) target c).nodeWorkspace i
        = s.nodeWorkspace i := by
    intro i hi
    unfold State.nodeWorkspace
    rw [hgco i hi]
  have hnwc : (registerNode (detachPrev s target c) target c).nodeWorkspace c
      = some target := nodeWorkspace_of_getNode hgcc
  have hnic : ∀ a ∈ w.nodeIds, a ≠ c := by
    intro a ha he
    exact hnm (by rw [hmemw, ← he]; exact ha)
  have hkwss : keysA (registerNode (detachPrev s target c) target c).wss
      = keysA s.wss := by
    show keysA (updA target (fun w => { w with nodeIds := w.nodeIds ++ [c] })
        (detachPrev s target c).wss) = keysA s.wss
    rw [keysA_updA, detachPrev_keysA_wss]
  have hchld : ∀ y, (registerNode (detachPrev s target c) target c).childrenOf y
      = s.childrenOf y := by
    intro y
    unfold State.childrenOf
    by_cases hy : y = c
    · subst hy
      rw [hgcc, hn]
    · rw [hgco y hy]
  have hcoh : (registerNode (detachPrev s target c) target c).Coherent := by
    refine (coherent_iff_lookup ?_).mpr ?_
    · rw [hkwss]; exact hco.1
    · intro k w' hw'
      by_cases hk : k = target
      · rw [hk] at hw'
        rw [hgwt] at hw'
        obtain rfl : ({ w with nodeIds := w.nodeIds ++ [c] } : Workspace) = w' :=
          Option.some_inj.mp hw'
        constructor
        · have hwnd : w.nodeIds.Nodup := (hco.2 (target, w) (lookupA_mem hw)).1
          exact hwnd.append (List.nodup_singleton c)
            (fun a ha hac => (hnic a ha) (List.mem_singleton.mp hac))
        · intro i hi
          rw [hk]
          rcases List.mem_append.mp hi with h1 | h2
          · have hne : i ≠ c := hnic i h1
            rw [hnw i hne]
            exact coherent_nodeWorkspace hco (by rw [hmemw]; exact h1)
          · rw [List.mem_singleton.mp h2]
            exact hnwc
      · have hw'' : (detachPrev s target c).getWs k = some w' := by
          rw [hgw k, if_neg hk] at hw'
          exact hw'
        obtain ⟨w0, hw0, hsh⟩ := detachPrev_getWs_shape k hw''
        have hw0nd : w0.nodeIds.Nodup := (hco.2 (k, w0) (lookupA_mem hw0)).1
        constructor
        · rcases hsh with hsh | hsh
          · rw [hsh]; exact hw0nd
          · rw [hsh]; exact hw0nd.erase c
        · intro i hi
          have hi' : i ∈ (registerNode (detachPrev s target c) target c).wsMembers k := by
            have hgk : (registerNode (detachPrev s target c) target c).getWs k
                = (detachPrev s target c).getWs k := by
              rw [hgw k, if_neg hk]
            rw [wsMembers_eq_of_getWs hgk, wsMembers_of_getWs hw'']
            exact hi
          obtain ⟨him, hine⟩ := hmemo k hk i hi'
          rw [hnw i hine]
          exact coherent_nodeWorkspace hco him
  have hclo : (registerNode (detachPrev s target c) target c).Closed :=
    closed_of_heap_ws_upd hcl hheap
  have hfc : freshCount target (registerNode (detachPrev s target c) target c)
      < freshCount target s := by
    unfold freshCount
    rw [hkeys]
    simp only [hmemt]
    refine filter_length_lt ?_ c (mem_keysA_of_lookupA hn) ?_ ?_
    · intro a ha
      rw [decide_eq_true_eq] at ha ⊢
      exact fun hm => ha (List.mem_append.mpr (Or.inl hm))
    · rw [decide_eq_false_iff_not, not_not]
      exact List.mem_append.mpr (Or.inr (List.mem_singleton.mpr rfl))
    · rw [decide_eq_true_eq]
      exact hnm
  exact ⟨hgcc, hgco, hmemt, hmemo, hkeys, hcoh, hclo, hfc, hchld⟩

theorem childrenOf_of_getNode {s : State} {i : NodeId} {n : Node}
    (h : s.getNode i = some n) : s.childrenOf i = n.children := by
  unfold State.childrenOf
  rw [h]

theorem childrenOf_of_getNode_none {s : State} {i : NodeId}
    (h : s.getNode i = none) : s.childrenOf i = [] := by
  unfold State.childrenOf
  rw [h]

/-- The loop of `move_children_recursive` (workspace.py:132-142): folding the
per-child step over a list of children of `cur`, given the induction
hypothesis for the recursive calls at the next smaller fuel. -/
theorem moveChildren_fold (target : WsId) (fuel : Nat) (cur : NodeId)
    (ih : ∀ s c, s.Coherent → s.Closed → c ∈ s.wsMembers target →
        freshCount target s ≤ fuel →
        MovedOk target s (moveChildren target fuel s c) ∧
        (∀ z ∈ s.childrenOf c, z ∈ (moveChildren target fuel s c).wsMembers target) ∧
        (∀ y, y ∈ (moveChildren target fuel s c).wsMembers target →
            y ∉ s.wsMembers target →
            FreshReach s (s.wsMembers target) c y)) :
    ∀ (cs : List NodeId) (a : State), a.Coherent → a.Closed →
      cur ∈ a.wsMembers target → freshCount target a ≤ fuel + 1 →
      (∀ c ∈ cs, c ∈ a.childrenOf cur) →
      MovedOk target a (cs.foldl
        (fun acc childId =>
          if childId ∈ acc.wsMembers target then acc
          else
            moveChildren target fuel
              (registerNode (detachPrev acc target childId) target childId) childId) a) ∧
      (∀ c ∈ cs, c ∈ (cs.foldl
        (fun acc childId =>
          if childId ∈ acc.wsMembers target then acc
          else
            moveChildren target fuel
              (registerNode (detachPrev acc target childId) target childId) childId)
          a).wsMembers target) ∧
      (∀ y, y ∈ (cs.foldl
        (fun acc childId =>
          if childId ∈ acc.wsMembers target then acc
          else
            moveChildren target fuel
              (registerNode (detachPrev acc target childId) target childId) childId)
          a).wsMembers target →
          y ∉ a.wsMembers target →
          FreshReach a (a.wsMembers target) cur y) := by
  intro cs
  induction cs with
  | nil =>
    intro a hco hcl _ _ _
    refine ⟨movedOk_refl hco hcl, ?_, ?_⟩
    · intro c hc; cases hc
    · intro y hy hny; exact absurd hy hny
  | cons c cs' ihl =>
    intro a hco hcl hcur hfc hch
    simp only [List.foldl_cons]
    by_cases hmem : c ∈ a.wsMembers target
    · rw [if_pos hmem]
      obtain ⟨hmk, hcs', hsnd⟩ := ihl a hco hcl hcur hfc
        (fun c' hc' => hch c' (List.mem_cons_of_mem c hc'))
      refine ⟨hmk, ?_, hsnd⟩
      intro c' hc'
      rcases List.mem_cons.mp hc' with rfl | hc''
      · exact hmk.1.2.2.1 c' hmem
      · exact hcs' c' hc''
    · rw [if_neg hmem]
      have hcchild : c ∈ a.childrenOf cur := hch c (List.mem_cons_self c cs')
      have hcur_nw := coherent_nodeWorkspace hco hcur
      obtain ⟨ncur, hncur, _⟩ := getNode_of_nodeWorkspace hcur_nw
      have hchn : a.childrenOf cur = ncur.children := childrenOf_of_getNode hncur
      have hckeys : c ∈ keysA a.heap :=
        hcl (cur, ncur) (lookupA_mem hncur) c
          (by show c ∈ ncur.children; rw [← hchn]; exact hcchild)
      obtain ⟨ncc, hncc⟩ := lookupA_isSome_of_mem hckeys
      obtain ⟨wa, hwa, _⟩ := getWs_of_mem_wsMembers hcur
      obtain ⟨r1, r2, r3, r4, r5, r6, r7, r8, r9⟩ :=
        register_step hco hcl hwa hncc hmem
      have hcin1 : c ∈ (registerNode (detachPrev a target c) target c).wsMembers target := by
        rw [r3]
        exact List.mem_append.mpr (Or.inr (List.mem_singleton.mpr rfl))
      have hcurin1 : cur ∈ (registerNode (detachPrev a target c) target c).wsMembers target := by
        rw [r3]
        exact List.mem_append.mpr (Or.inl hcur)
      have hfc1 : freshCount target (registerNode (detachPrev a target c) target c) ≤ fuel :=
        Nat.lt_succ_iff.mp (Nat.lt_of_lt_of_le r8 hfc)
      obtain ⟨m2, hchld2, hsnd2⟩ := ih (registerNode (detachPrev a target c) target c) c
        r6 r7 hcin1 hfc1
      obtain ⟨ms2, hco2, hcl2, hk2, hf2, hch2, hc72⟩ := m2
      have hms1 : MoveStep target a (registerNode (detachPrev a target c) target c) := by
        refine ⟨?_, ?_, ?_, ?_, ?_⟩
        · intro x n0 hx
          by_cases hxc : x = c
          · subst hxc
            have hn0 : n0 = ncc := Option.some_inj.mp (hx.symm.trans hncc)
            subst hn0
            exact ⟨{ n0 with workspace := target }, r1, rfl, rfl, rfl, rfl, rfl, rfl,
              Or.inr ⟨rfl, hcin1, hmem⟩⟩
          · exact ⟨n0, by rw [r2 x hxc]; exact hx, rfl, rfl, rfl, rfl, rfl, rfl, Or.inl rfl⟩
        · intro x hx
          by_cases hxc : x = c
          · subst hxc
            exact Option.noConfusion (hx.symm.trans hncc)
          · rw [r2 x hxc]
            exact hx
        · intro i hi
          rw [r3]
          exact List.mem_append.mpr (Or.inl hi)
        · intro k hk i hi
          exact (r4 k hk i hi).1
        · intro x hx hnx
          have hxc : x = c := by
            rw [r3] at hx
            rcases List.mem_append.mp hx with h1 | h2
            · exact absurd h1 hnx
            · exact List.mem_singleton.mp h2
          subst hxc
          refine ⟨nodeWorkspace_of_getNode r1, ?_⟩
          intro k hk hxk
          exact (r4 k hk x hxk).2 rfl
      have hcur2 : cur ∈ (moveChildren target fuel
          (registerNode (detachPrev a target c) target c) c).wsMembers target :=
        ms2.2.2.1 cur hcurin1
      have hmk12 : MovedOk target a (moveChildren target fuel
          (registerNode (detachPrev a target c) target c) c) := by
        refine ⟨moveStep_trans hms1 ms2, hco2, hcl2, hk2.trans r5,
          Nat.le_trans hf2 (Nat.le_of_lt r8), fun y => (hch2 y).trans (r9 y), ?_⟩
        intro y hy hny z hz
        by_cases hy1 : y ∈ (registerNode (detachPrev a target c) target c).wsMembers target
        · have hyc : y = c := by
            rw [r3] at hy1
            rcases List.mem_append.mp hy1 with h1 | h2
            · exact absurd h1 hny
            · exact List.mem_singleton.mp h2
          subst hyc
          exact hchld2 z (by rw [r9 y]; exact hz)
        · exact hc72 y hy hy1 z (by rw [r9 y]; exact hz)
      obtain ⟨ms12, hco12, hcl12, hk12, hf12, hche12, hc712⟩ := hmk12
      have hfc2 : freshCount target (moveChildren target fuel
          (registerNode (detachPrev a target c) target c) c) ≤ fuel + 1 :=
        Nat.le_trans hf12 hfc
      have hch_cs' : ∀ c' ∈ cs', c' ∈ (moveChildren target fuel
          (registerNode (detachPrev a target c) target c) c).childrenOf cur := by
        intro c' hc'
        rw [hche12 cur]
        exact hch c' (List.mem_cons_of_mem c hc')
      obtain ⟨mk3, hcs3, hsnd3⟩ := ihl (moveChildren target fuel
        (registerNode (detachPrev a target c) target c) c) hco12 hcl12 hcur2 hfc2 hch_cs'
      refine ⟨movedOk_trans ⟨ms12, hco12, hcl12, hk12, hf12, hche12, hc712⟩ mk3, ?_, ?_⟩
      · intro c' hc'
        rcases List.mem_cons.mp hc' with rfl | hc''
        · exact mk3.1.2.2.1 c' (ms2.2.2.1 c' hcin1)
        · exact hcs3 c' hc''
      · intro y hy hny
        by_cases hy2 : y ∈ (moveChildren target fuel
            (registerNode (detachPrev a target c) target c) c).wsMembers target
        · by_cases hy1 : y ∈ (registerNode (detachPrev a target c) target c).wsMembers target
          · have hyc : y = c := by
              rw [r3] at hy1
              rcases List.mem_append.mp hy1 with h1 | h2
              · exact absurd h1 hny
              · exact List.mem_singleton.mp h2
            subst hyc
            exact FreshReach.step (FreshReach.refl cur) hcchild hny
          · have hre := hsnd2 y hy2 hy1
            have hre' : FreshReach a (a.wsMembers target) c y :=
              freshReach_mono r9 (fun z hz hza => hz (hms1.2.2.1 z hza)) hre
            exact freshReach_trans
              (FreshReach.step (FreshReach.refl cur) hcchild hmem) hre'
        · have hre := hsnd3 y hy hy2
          refine freshReach_mono ?_ ?_ hre
          · intro v
            exact (hch2 v).trans (r9 v)
          · intro z hz hza
            exact hz (ms2.2.2.1 z (hms1.2.2.1 z hza))

/-- Master lemma for `move_children_recursive` (workspace.py:131-144) on
coherent, closed states with sufficient fuel: the call is a `MoveStep`
preserving all invariants, it registers every child of `cur`, and every node
it newly registers is fresh-reachable from `cur`. -/
theorem moveChildren_master (target : WsId) : ∀ (fuel : Nat) (s : State) (cur : NodeId),
    s.Coherent → s.Closed → cur ∈ s.wsMembers target →
    freshCount target s ≤ fuel →
    MovedOk target s (moveChildren target fuel s cur) ∧
    (∀ z ∈ s.childrenOf cur, z ∈ (moveChildren target fuel s cur).wsMembers target) ∧
    (∀ y, y ∈ (moveChildren target fuel s cur).wsMembers target →
        y ∉ s.wsMembers target →
        FreshReach s (s.wsMembers target) cur y) := by
  intro fuel
  induction fuel with
  | zero =>
    intro s cur hco hcl _ hfc
    refine ⟨movedOk_refl hco hcl, ?_, ?_⟩
    · intro z hz
      cases hncur : s.getNode cur with
      | none =>
        rw [childrenOf_of_getNode_none hncur] at hz
        cases hz
      | some ncur =>
        have hzkeys : z ∈ keysA s.heap :=
          hcl (cur, ncur) (lookupA_mem hncur) z
            (by show z ∈ ncur.children
                rw [← childrenOf_of_getNode hncur]
                exact hz)
        have h0 : freshCount target s = 0 := Nat.le_zero.mp hfc
        unfold freshCount at h0
        have hnil := List.length_eq_zero.mp h0
        have hnp := List.filter_eq_nil.mp hnil z hzkeys
        rw [decide_eq_true_eq] at hnp
        exact not_not.mp hnp
    · intro y hy hny
      exact absurd hy hny
  | succ fuel ihf =>
    intro s cur hco hcl hcur hfc
    cases hncur : s.getNode cur with
    | none =>
      have heq : moveChildren target (fuel + 1) s cur = s := by
        simp only [moveChildren, hncur]
      rw [heq]
      refine ⟨movedOk_refl hco hcl, ?_, ?_⟩
      · intro z hz
        rw [childrenOf_of_getNode_none hncur] at hz
        cases hz
      · intro y hy hny
        exact absurd hy hny
    | some n =>
      have heq : moveChildren target (fuel + 1) s cur
          = n.children.foldl
              (fun acc childId =>
                if childId ∈ acc.wsMembers target then acc
                else
                  moveChildren target fuel
                    (registerNode (detachPrev acc target childId) target childId) childId)
              s := by
        simp only [moveChildren, hncur]
      rw [heq]
      obtain ⟨mk, hcs, hsnd⟩ := moveChildren_fold target fuel cur ihf n.children s
        hco hcl hcur hfc
        (fun c hc => by rw [childrenOf_of_getNode hncur]; exact hc)
      refine ⟨mk, ?_, hsnd⟩
      intro z hz
      exact hcs z (by rw [← childrenOf_of_getNode hncur]; exact hz)

theorem freshReach_last {s : State} {A : List NodeId} {x y : NodeId}
    (h : FreshReach s A x y) : y = x ∨ y ∉ A := by
  cases h with
  | refl => exact Or.inl rfl
  | step _ _ hn => exact Or.inr hn

/-- The detach-and-register step is a `MoveStep` that adds exactly the
registered node to the target workspace. -/
theorem registered_moveStep {s : State} {target : WsId} {c : NodeId}
    {w : Workspace} {nc : Node}
    (hco : s.Coherent) (hcl : s.Closed)
    (hw : s.getWs target = some w) (hn : s.getNode c = some nc)
    (hnm : c ∉ s.wsMembers target) :
    MoveStep target s (registerNode (detachPrev s target c) target c) := by
  obtain ⟨r1, r2, r3, r4, _, _, _, _, _⟩ := register_step hco hcl hw hn hnm
  have hcin1 : c ∈ (registerNode (detachPrev s target c) target c).wsMembers target := by
    rw [r3]
    exact List.mem_append.mpr (Or.inr (List.mem_singleton.mpr rfl))
  refine ⟨?_, ?_, ?_, ?_, ?_⟩
  · intro x n0 hx
    by_cases hxc : x = c
    · subst hxc
      have hn0 : n0 = nc := Option.some_inj.mp (hx.symm.trans hn)
      subst hn0
      exact ⟨{ n0 with workspace := target }, r1, rfl, rfl, rfl, rfl, rfl, rfl,
        Or.inr ⟨rfl, hcin1, hnm⟩⟩
    · exact ⟨n0, by rw [r2 x hxc]; exact hx, rfl, rfl, rfl, rfl, rfl, rfl, Or.inl rfl⟩
  · intro x hx
    by_cases hxc : x = c
    · subst hxc
      exact Option.noConfusion (hx.symm.trans hn)
    · rw [r2 x hxc]
      exact hx
  · intro j hj
    rw [r3]
    exact List.mem_append.mpr (Or.inl hj)
  · intro k hk j hj
    exact (r4 k hk j hj).1
  · intro x hx hnx
    have hxc : x = c := by
      rw [r3] at hx
      rcases List.mem_append.mp hx with h1 | h2
      · exact absurd h1 hnx
      · exact List.mem_singleton.mp h2
    subst hxc
    refine ⟨nodeWorkspace_of_getNode r1, ?_⟩
    intro k hk hxk
    exact (r4 k hk x hxk).2 rfl

/-- Claim C6 counterexample: node 10 already registered in workspace 0 has a
child 11 living in workspace 1 (a state reached purely through the public
constructor).  Calling `add_node` on node 10 returns at the already-present
check (workspace.py:114-115) without descending into children, so afterwards
the reachable child 11 still has workspace 1 and is not registered in
workspace 0 — refuting descendant closure as stated. -/
theorem add_node_descendant_closure_counterexample :
    11 ∈ sampleCross.childrenOf 10 ∧
    Workspace.add_node sampleCross 0 10 = sampleCross ∧
    (Workspace.add_node sampleCross 0 10).nodeWorkspace 11 = some 1 ∧
    11 ∉ (Workspace.add_node sampleCross 0 10).wsMembers 0 := by
  decide

/-- Claim C6 (amended): after `W.add_node(N)` on a coherent, closed state with
`N` live and not already registered in `W`, the node `N` and every node
fresh-reachable from it along child edges through nodes not previously
registered in `W` end up registered in `W` with their workspace pointer set to
`W` and registered in no other workspace (hence detached from any previous
one); conversely only such fresh-reachable nodes are newly registered (so
nodes that are merely ancestors are never moved); and every node survives
with data, parents and children untouched, its workspace either unchanged or
re-pointed to `W`.  If `N` is already registered, the call returns immediately
and moves nothing (see the counterexample). -/
theorem add_node_moves_fresh_descendants (s : State) (target : WsId) (i : NodeId)
    (w : Workspace) (n : Node)
    (hco : s.Coherent) (hcl : s.Closed)
    (hw : s.getWs target = some w) (hn : s.getNode i = some n)
    (hfresh : i ∉ w.nodeIds) :
    (∀ d, FreshReach s (s.wsMembers target) i d →
        d ∈ (Workspace.add_node s target i).wsMembers target ∧
        (Workspace.add_node s target i).nodeWorkspace d = some target ∧
        ∀ k, k ≠ target → d ∉ (Workspace.add_node s target i).wsMembers k) ∧
    (∀ x, x ∈ (Workspace.add_node s target i).wsMembers target →
        x ∉ s.wsMembers target → FreshReach s (s.wsMembers target) i x) ∧
    (∀ x n0, s.getNode x = some n0 → ∃ n1,
        (Workspace.add_node s target i).getNode x = some n1 ∧
        n1.data = n0.data ∧ n1.parents = n0.parents ∧ n1.children = n0.children ∧
        (n1.workspace = n0.workspace ∨ n1.workspace = target)) := by
  have hnm : i ∉ s.wsMembers target := by
    rw [wsMembers_of_getWs hw]
    exact hfresh
  have heq : Workspace.add_node s target i
      = moveChildren target
          ((registerNode (detachPrev s target i) target i).heap.length + 1)
          (registerNode (detachPrev s target i) target i) i := by
    simp only [Workspace.add_node, hw, hn]
    rw [if_neg hfresh]
  rw [heq]
  obtain ⟨r1, r2, r3, r4, r5, r6, r7, r8, r9⟩ := register_step hco hcl hw hn hnm
  have hi1 : i ∈ (registerNode (detachPrev s target i) target i).wsMembers target := by
    rw [r3]
    exact List.mem_append.mpr (Or.inr (List.mem_singleton.mpr rfl))
  have hfc1 : freshCount target (registerNode (detachPrev s target i) target i)
      ≤ (registerNode (detachPrev s target i) target i).heap.length + 1 := by
    have h1 : freshCount target (registerNode (detachPrev s target i) target i)
        ≤ (keysA (registerNode (detachPrev s target i) target i).heap).length :=
      List.length_filter_le _ _
    have h2 : (keysA (registerNode (detachPrev s target i) target i).heap).length
        = (registerNode (detachPrev s target i) target i).heap.length := by
      unfold keysA
      exact List.length_map _ _
    exact Nat.le_succ_of_le (h2 ▸ h1)
  obtain ⟨mkM, hchM, hsndM⟩ := moveChildren_master target
    ((registerNode (detachPrev s target i) target i).heap.length + 1)
    (registerNode (detachPrev s target i) target i) i r6 r7 hi1 hfc1
  obtain ⟨msM, hcoM, hclM, hkM, hfM, hchEqM, hc7M⟩ := mkM
  have hms1 : MoveStep target s (registerNode (detachPrev s target i) target i) :=
    registered_moveStep hco hcl hw hn hnm
  have hms : MoveStep target s (moveChildren target
      ((registerNode (detachPrev s target i) target i).heap.length + 1)
      (registerNode (detachPrev s target i) target i) i) :=
    moveStep_trans hms1 msM
  refine ⟨?_, ?_, ?_⟩
  · intro d hd
    have hdm : d ∈ (moveChildren target
        ((registerNode (detachPrev s target i) target i).heap.length + 1)
        (registerNode (detachPrev s target i) target i) i).wsMembers target := by
      induction hd with
      | refl => exact msM.2.2.1 i hi1
      | step hreach hcz hnz ihd =>
        rename_i y z
        rcases freshReach_last hreach with hyi | hyns
        · rw [hyi] at hcz
          exact hchM z (by rw [r9 i]; exact hcz)
        · by_cases hy1 : y ∈ (registerNode (detachPrev s target i) target i).wsMembers target
          · have hyc : y = i := by
              rw [r3] at hy1
              rcases List.mem_append.mp hy1 with h1 | h2
              · exact absurd h1 hyns
              · exact List.mem_singleton.mp h2
            rw [hyc] at hcz
            exact hchM z (by rw [r9 i]; exact hcz)
          · exact hc7M y ihd hy1 z (by rw [r9 y]; exact hcz)
    have hdns : d ∉ s.wsMembers target := by
      rcases freshReach_last hd with rfl | h
      · exact hnm
      · exact h
    obtain ⟨hnw, hnoth⟩ := hms.2.2.2.2 d hdm hdns
    exact ⟨hdm, hnw, hnoth⟩
  · intro x hx hnx
    by_cases hx1 : x ∈ (registerNode (detachPrev s target i) target i).wsMembers target
    · have hxi : x = i := by
        rw [r3] at hx1
        rcases List.mem_append.mp hx1 with h1 | h2
        · exact absurd h1 hnx
        · exact List.mem_singleton.mp h2
      subst hxi
      exact FreshReach.refl x
    · exact freshReach_mono r9 (fun z hz hza => hz (hms1.2.2.1 z hza))
        (hsndM x hx hx1)
  · intro x n0 hx
    obtain ⟨n1, hn1, _, _, e3, e4, e5, _, hw1⟩ := hms.1 x n0 hx
    refine ⟨n1, hn1, e3, e4, e5, ?_⟩
    rcases hw1 with h | ⟨h, _, _⟩
    · exact Or.inl h
    · exact Or.inr h

theorem add_node_moves_fresh_descendants_witness :
    22 ∈ (Workspace.add_node sampleMove 0 21).wsMembers 0 ∧
    (Workspace.add_node sampleMove 0 21).nodeWorkspace 22 = some 0 ∧
    22 ∉ (Workspace.add_node sampleMove 0 21).wsMembers 1 := by
  have h := add_node_moves_fresh_descendants sampleMove 0 21
    { id := 0, name := "w0", nodeIds := [] }
    { id := 21, name := "R", data := PlData.dataFrame [[1]], parents := [],
      children := [22], workspace := 1, operation := none }
    (by decide) (by decide) (by decide) (by decide) (by decide)
  have hr : FreshReach sampleMove (sampleMove.wsMembers 0) 21 22 :=
    FreshReach.step (FreshReach.refl 21) (by decide) (by decide)
  obtain ⟨h1, h2, h3⟩ := h.1 22 hr
  exact ⟨h1, h2, h3 1 (by decide)⟩
